import Mathlib

/-!
Verification development for the job-offers pipeline
(`fetch_offers.py`, `analyze_offers.py`, `generate_email.py`).

The Python code is shallowly embedded: JSON values become the inductive
type `Json`; dict lookups, Python truthiness, `str.strip`, `json.dumps`
with sorted keys, the HTTP retry loop, the paginator, the batch splitter,
the Gemini retry loop, the response sanitizer, the consolidator and
the HTML renderer are translated function by function.  Machine-level
effects (network, disk, clock) are made explicit: attempt outcomes are
inputs, persisted artifacts and performed sleeps are outputs.
-/

/-- JSON values, the data model of every record moved through the pipeline. -/
inductive Json where
  | null : Json
  | bool : Bool → Json
  | num : Int → Json
  | str : String → Json
  | arr : List Json → Json
  | obj : List (String × Json) → Json

mutual

/-- Boolean equality on JSON values. -/
def Json.beq : Json → Json → Bool
  | .null, .null => true
  | .bool a, .bool b => a == b
  | .num a, .num b => a == b
  | .str a, .str b => a == b
  | .arr a, .arr b => Json.beqList a b
  | .obj a, .obj b => Json.beqFields a b
  | _, _ => false

/-- Boolean equality on JSON arrays. -/
def Json.beqList : List Json → List Json → Bool
  | [], [] => true
  | a :: as, b :: bs => Json.beq a b && Json.beqList as bs
  | _, _ => false

/-- Boolean equality on JSON object field lists. -/
def Json.beqFields : List (String × Json) → List (String × Json) → Bool
  | [], [] => true
  | (k1, v1) :: as, (k2, v2) :: bs => k1 == k2 && Json.beq v1 v2 && Json.beqFields as bs
  | _, _ => false

end

mutual

def Json.beq_refl : ∀ a : Json, Json.beq a a = true
  | .null => rfl
  | .bool a => by simp [Json.beq]
  | .num a => by simp [Json.beq]
  | .str a => by simp [Json.beq]
  | .arr a => Json.beqList_refl a
  | .obj a => Json.beqFields_refl a

def Json.beqList_refl : ∀ l : List Json, Json.beqList l l = true
  | [] => rfl
  | a :: as => by
    have h1 := Json.beq_refl a
    have h2 := Json.beqList_refl as
    simp [Json.beqList, h1, h2]

def Json.beqFields_refl : ∀ l : List (String × Json), Json.beqFields l l = true
  | [] => rfl
  | (k, v) :: as => by
    have h1 := Json.beq_refl v
    have h2 := Json.beqFields_refl as
    simp [Json.beqFields, h1, h2]

end

mutual

def Json.eq_of_beq : ∀ a b : Json, Json.beq a b = true → a = b
  | .null, .null, _ => rfl
  | .null, .bool _, h => Bool.noConfusion h
  | .null, .num _, h => Bool.noConfusion h
  | .null, .str _, h => Bool.noConfusion h
  | .null, .arr _, h => Bool.noConfusion h
  | .null, .obj _, h => Bool.noConfusion h
  | .bool _, .null, h => Bool.noConfusion h
  | .bool a, .bool b, h => by simp [Json.beq] at h; rw [h]
  | .bool _, .num _, h => Bool.noConfusion h
  | .bool _, .str _, h => Bool.noConfusion h
  | .bool _, .arr _, h => Bool.noConfusion h
  | .bool _, .obj _, h => Bool.noConfusion h
  | .num _, .null, h => Bool.noConfusion h
  | .num _, .bool _, h => Bool.noConfusion h
  | .num a, .num b, h => by simp [Json.beq] at h; rw [h]
  | .num _, .str _, h => Bool.noConfusion h
  | .num _, .arr _, h => Bool.noConfusion h
  | .num _, .obj _, h => Bool.noConfusion h
  | .str _, .null, h => Bool.noConfusion h
  | .str _, .bool _, h => Bool.noConfusion h
  | .str _, .num _, h => Bool.noConfusion h
  | .str a, .str b, h => by simp [Json.beq] at h; rw [h]
  | .str _, .arr _, h => Bool.noConfusion h
  | .str _, .obj _, h => Bool.noConfusion h
  | .arr _, .null, h => Bool.noConfusion h
  | .arr _, .bool _, h => Bool.noConfusion h
  | .arr _, .num _, h => Bool.noConfusion h
  | .arr _, .str _, h => Bool.noConfusion h
  | .arr a, .arr b, h => congrArg Json.arr (Json.eqList_of_beq a b h)
  | .arr _, .obj _, h => Bool.noConfusion h
  | .obj _, .null, h => Bool.noConfusion h
  | .obj _, .bool _, h => Bool.noConfusion h
  | .obj _, .num _, h => Bool.noConfusion h
  | .obj _, .str _, h => Bool.noConfusion h
  | .obj _, .arr _, h => Bool.noConfusion h
  | .obj a, .obj b, h => congrArg Json.obj (Json.eqFields_of_beq a b h)

def Json.eqList_of_beq : ∀ a b : List Json, Json.beqList a b = true → a = b
  | [], [], _ => rfl
  | [], _ :: _, h => Bool.noConfusion h
  | _ :: _, [], h => Bool.noConfusion h
  | a :: as, b :: bs, h => by
    simp only [Json.beqList, Bool.and_eq_true] at h
    rw [Json.eq_of_beq a b h.1, Json.eqList_of_beq as bs h.2]

def Json.eqFields_of_beq :
    ∀ a b : List (String × Json), Json.beqFields a b = true → a = b
  | [], [], _ => rfl
  | [], _ :: _, h => Bool.noConfusion h
  | _ :: _, [], h => Bool.noConfusion h
  | (k1, v1) :: as, (k2, v2) :: bs, h => by
    simp only [Json.beqFields, Bool.and_eq_true] at h
    obtain ⟨⟨hk, hv⟩, hf⟩ := h
    have hk2 : k1 = k2 := by simpa using hk
    rw [hk2, Json.eq_of_beq v1 v2 hv, Json.eqFields_of_beq as bs hf]

end

instance : DecidableEq Json := fun a b =>
  if h : Json.beq a b = true then isTrue (Json.eq_of_beq a b h)
  else isFalse (fun hh => h (hh ▸ Json.beq_refl a))

/-- Dictionary lookup, `d.get(k)`: first binding of the key, `None` when absent. -/
def pyGet (j : Json) (k : String) : Option Json :=
  match j with
  | .obj fields => (fields.find? (fun p => p.1 = k)).map Prod.snd
  | _ => none

/-- Python truthiness of a JSON value (`bool(v)`): `None`, `False`, `0`,
empty strings and empty containers are falsy. -/
def jsonTruthy : Json → Bool
  | .null => false
  | .bool b => b
  | .num n => n != 0
  | .str s => s != ""
  | .arr l => !l.isEmpty
  | .obj l => !l.isEmpty

/-- The value of `a or b`-style chaining: keep a value only when truthy. -/
def truthyOpt : Option Json → Option Json
  | some v => if jsonTruthy v then some v else none
  | none => none

/-- Whether a JSON value is an object (a Python `dict`). -/
def jsonIsObj : Json → Bool
  | .obj _ => true
  | _ => false

/-- Whether the corresponding Python value is hashable (usable as a set member). -/
def jsonHashable : Json → Bool
  | .arr _ => false
  | .obj _ => false
  | _ => true

/-- Python whitespace for `str.strip` (ASCII variants). -/
def pyIsSpace (c : Char) : Bool :=
  c = ' ' || c = '\t' || c = '\n' || c = '\r' || c = Char.ofNat 11 || c = Char.ofNat 12

/-- Python `str.lstrip()` on a character list. -/
def lstrip (s : List Char) : List Char := s.dropWhile pyIsSpace

/-- Python `str.rstrip()` on a character list. -/
def rstrip (s : List Char) : List Char := (s.reverse.dropWhile pyIsSpace).reverse

/-- Python `str.strip()` on a character list. -/
def pyStrip (s : List Char) : List Char := rstrip (lstrip s)

/-- Python slicing `s[:-n]` for positive `n`: all but the last `n` characters. -/
def dropLastN (s : List Char) (n : Nat) : List Char := s.take (s.length - n)

/-- Python `s.endswith(suffix)` on character lists. -/
def listEndsWith (suffix s : List Char) : Bool := suffix.reverse.isPrefixOf s.reverse

/-- Modelled from the Python standard library: JSON string escaping as done by
`json.dumps`, restricted to the quote and backslash characters (control
characters are kept verbatim in this model). -/
def jsonEscapeChar (c : Char) : List Char :=
  if c = '"' || c = '\\' then ['\\', c] else [c]

/-- Serialize a string with JSON quoting. -/
def jsonQuote (s : String) : String :=
  String.mk ('"' :: (s.data.flatMap jsonEscapeChar ++ ['"']))

/-- Lexicographic code-point comparison of character lists
(Python `str <`). -/
def charListLt : List Char → List Char → Bool
  | [], [] => false
  | [], _ :: _ => true
  | _ :: _, [] => false
  | a :: as, b :: bs =>
    if a.toNat < b.toNat then true
    else if b.toNat < a.toNat then false
    else charListLt as bs

/-- Python string comparison `a < b`. -/
def strLt (a b : String) : Bool := charListLt a.data b.data

/-- Stable insertion of a rendered field into a key-sorted list. -/
def insertFieldSorted (p : String × String) :
    List (String × String) → List (String × String)
  | [] => [p]
  | q :: qs => if strLt q.1 p.1 then q :: insertFieldSorted p qs else p :: q :: qs

/-- Stable ascending sort of rendered fields by key (model of `sort_keys=True`). -/
def sortFieldsByKey : List (String × String) → List (String × String)
  | [] => []
  | p :: ps => insertFieldSorted p (sortFieldsByKey ps)

mutual

/-- Modelled from the Python standard library: `json.dumps(v, sort_keys=True)`
with the default separators, on the integer fragment of JSON. -/
def dumps : Json → String
  | .null => "null"
  | .bool true => "true"
  | .bool false => "false"
  | .num n => toString n
  | .str s => jsonQuote s
  | .arr xs => "[" ++ String.intercalate ", " (dumpsList xs) ++ "]"
  | .obj fs =>
      "\x7b" ++ String.intercalate ", "
        ((sortFieldsByKey (dumpsFields fs)).map (fun p => jsonQuote p.1 ++ ": " ++ p.2))
      ++ "\x7d"

/-- Serialize every element of a JSON array. -/
def dumpsList : List Json → List String
  | [] => []
  | x :: xs => dumps x :: dumpsList xs

/-- Render every object field to a (key, serialized value) pair, in order. -/
def dumpsFields : List (String × Json) → List (String × String)
  | [] => []
  | (k, v) :: fs => (k, dumps v) :: dumpsFields fs

end

mutual

/-- Modelled from the Python standard library: `repr(v)` for JSON-shaped
values (strings in single quotes, without escape handling). -/
def pyRepr : Json → String
  | .null => "None"
  | .bool true => "True"
  | .bool false => "False"
  | .num n => toString n
  | .str s => String.mk (Char.ofNat 39 :: (s.data ++ [Char.ofNat 39]))
  | .arr xs => "[" ++ String.intercalate ", " (pyReprList xs) ++ "]"
  | .obj fs => "\x7b" ++ String.intercalate ", " (pyReprFields fs) ++ "\x7d"

/-- `repr` of every element of a list. -/
def pyReprList : List Json → List String
  | [] => []
  | x :: xs => pyRepr x :: pyReprList xs

/-- `repr` of every field of a dict. -/
def pyReprFields : List (String × Json) → List String
  | [] => []
  | (k, v) :: fs =>
      (String.mk (Char.ofNat 39 :: (k.data ++ [Char.ofNat 39])) ++ ": " ++ pyRepr v)
        :: pyReprFields fs

end

/-- Modelled from the Python standard library: `str(v)`. -/
def pyStr : Json → String
  | .str s => s
  | v => pyRepr v

/-- Outcome of one HTTP attempt inside `HttpClient.get_json`: a transient
network exception (`requests.Timeout` / `requests.ConnectionError`), or a
response carrying its status code and the JSON body `resp.json()` yields. -/
inductive HttpOutcome where
  | netErr : String → HttpOutcome
  | resp : Nat → Json → HttpOutcome

/-- The status codes `get_json` retries: `(429, 500, 502, 503, 504)`. -/
def retryableStatus (code : Nat) : Bool :=
  code = 429 || code = 500 || code = 502 || code = 503 || code = 504

/-- Requests' `resp.ok`: true exactly for status codes below 400. -/
def respOk (code : Nat) : Bool := code < 400

deriving instance DecidableEq for Except

/-- Observable behaviour of one `HttpClient.get_json` call: the returned value
or raised error, the number of attempts performed, and the sleeps in order. -/
structure GetJsonTrace where
  result : Except String Json
  attemptsMade : Nat
  sleeps : List ℚ
deriving DecidableEq

/-- The attempt loop of `HttpClient.get_json`, with the 1-based `attempt`
counter, the current `backoff` delay, and the number of loop iterations left
(`max_retries - attempt + 1`) as fuel. -/
def getJsonGo (env : Nat → HttpOutcome) (maxRetries : Nat) :
    Nat → ℚ → Nat → GetJsonTrace
  | _, _, 0 => ⟨.error "Exhausted retries without response", 0, []⟩
  | attempt, backoff, fuel + 1 =>
    match env attempt with
    | .netErr e =>
      if attempt < maxRetries then
        let t := getJsonGo env maxRetries (attempt + 1) (backoff * 2) fuel
        ⟨t.result, t.attemptsMade + 1, backoff :: t.sleeps⟩
      else ⟨.error ("Network error after attempts: " ++ e), 1, []⟩
    | .resp code body =>
      if retryableStatus code && decide (attempt < maxRetries) then
        let t := getJsonGo env maxRetries (attempt + 1) (backoff * 2) fuel
        ⟨t.result, t.attemptsMade + 1, backoff :: t.sleeps⟩
      else if !respOk code then ⟨.error "HTTP error status", 1, []⟩
      else ⟨.ok body, 1, []⟩

/-- `HttpClient.get_json`: up to `max_retries` attempts, retrying transient
network errors and 429/5xx statuses with doubling backoff. -/
def getJson (env : Nat → HttpOutcome) (maxRetries : Nat) (backoffSeconds : ℚ) :
    GetJsonTrace :=
  getJsonGo env maxRetries 1 backoffSeconds maxRetries

/-- `JobOffersFetcher._dedupe_key`:
`str(item.get("_id") or item.get("linkOffer") or id(item))`.  An item is a
parsed JSON record paired with its CPython object identity `id(item)`,
modelled as a natural number that is distinct for distinct live objects. -/
def dedupeKey (item : Nat × Json) : String :=
  pyStr (match truthyOpt (pyGet item.2 "_id") with
    | some v => v
    | none =>
      match truthyOpt (pyGet item.2 "linkOffer") with
      | some v => v
      | none => Json.num item.1)

/-- Paginator accumulation state: the `seen` key set and the consolidated
offer list (each offer keeps its object identity). -/
structure FetchAcc where
  seen : List String
  consolidated : List (Nat × Json)
deriving DecidableEq

/-- `add_batch` inside `JobOffersFetcher.get_all_offers`: skip items whose
dedup key was already seen, keep first occurrences in order. -/
def addBatch (st : FetchAcc) : List (Nat × Json) → FetchAcc
  | [] => st
  | it :: its =>
    let key := dedupeKey it
    if key ∈ st.seen then addBatch st its
    else addBatch ⟨key :: st.seen, st.consolidated ++ [it]⟩ its

/-- The envelope keys `fetch_page` requires. -/
def envelopeKeys : List String := ["results", "total", "totalPages", "page"]

/-- Whether a raw page response passes `fetch_page`'s validation:
all envelope keys present and `results` a list. -/
def validEnvelope (data : Json) : Bool :=
  (envelopeKeys.all (fun k => (pyGet data k).isSome)) &&
    (match pyGet data "results" with
     | some (.arr _) => true
     | _ => false)

/-- `JobOffersFetcher.fetch_page`: one `get_json` call (`server days page`
models its outcome) followed by the minimal envelope validation. -/
def fetchPage (server : Int → Int → Except String Json) (days page : Int) :
    Except String Json :=
  match server days page with
  | .error e => .error e
  | .ok data =>
    if validEnvelope data then .ok data
    else .error "Missing key or non-list results in API response"

/-- Modelled from the Python standard library: `int(v)` on JSON values. -/
def parseDigitsAll (s : List Char) : Option Nat :=
  if s.isEmpty then none
  else if s.all Char.isDigit then
    some (s.foldl (fun a c => a * 10 + (c.toNat - 48)) 0)
  else none

/-- Modelled from the Python standard library: `int(v)` (numbers pass
through, booleans map to 0/1, stripped digit strings parse, anything
else raises). -/
def pyInt : Json → Except String Int
  | .num n => .ok n
  | .bool b => .ok (if b then 1 else 0)
  | .str s =>
    (match pyStrip s.data with
     | '-' :: rest =>
       match parseDigitsAll rest with
       | some n => .ok (-(n : Int))
       | none => .error "ValueError: invalid literal for int()"
     | t =>
       match parseDigitsAll t with
       | some n => .ok (n : Int)
       | none => .error "ValueError: invalid literal for int()")
  | _ => .error "TypeError: int() argument"

/-- The `results` list of a validated page envelope. -/
def resultsOf (data : Json) : List Json :=
  match pyGet data "results" with
  | some (.arr xs) => xs
  | _ => []

/-- Give each freshly parsed result record a fresh object identity starting
at `next`: JSON parsing allocates a new dict per record. -/
def assignIds (next : Nat) (items : List Json) : List (Nat × Json) :=
  items.enum.map (fun p => (next + p.1, p.2))

/-- Metadata dict returned by `get_all_offers`. -/
structure FetchRunMeta where
  total_reported : Option Json
  pages_traversed : Int
  total_pages_api : Int
  items_consolidated : Nat
  days_param : Int
deriving DecidableEq

/-- Observable behaviour of one `get_all_offers` run: the consolidated
offers, the metadata, and the page numbers fetched, in order. -/
structure FetchRun where
  offers : List (Nat × Json)
  meta : FetchRunMeta
  fetchedPages : List Int
deriving DecidableEq

/-- The page loop of `get_all_offers` over pages `2..total_pages`: `p` is the
next page number and `fuel` the number of pages left.  The fixed inter-page
pacing sleep changes no data and is not recorded.  Returns the final
accumulator, the next fresh object identity, and all fetched page numbers. -/
def pagesLoop (server : Int → Int → Except String Json) (days : Int) :
    Int → Nat → FetchAcc → Nat → List Int →
      Except String (FetchAcc × Nat × List Int)
  | _, 0, st, nid, fetched => .ok (st, nid, fetched)
  | p, fuel + 1, st, nid, fetched =>
    match fetchPage server days p with
    | .error e => .error e
    | .ok data =>
      pagesLoop server days (p + 1) fuel
        (addBatch st (assignIds nid (resultsOf data)))
        (nid + (resultsOf data).length) (fetched ++ [p])

/-- `JobOffersFetcher.get_all_offers`: fetch page 1 to learn `totalPages`,
cap it by `max_pages` when given, walk the remaining pages in order,
deduplicate across all pages, and report aggregate metadata. -/
def getAllOffers (server : Int → Int → Except String Json) (days : Int)
    (maxPages : Option Int) : Except String FetchRun :=
  match fetchPage server days 1 with
  | .error e => .error e
  | .ok first =>
    match pyInt ((pyGet first "totalPages").getD (Json.num 1)) with
    | .error e => .error e
    | .ok totalPagesApi =>
      let totalPages := match maxPages with
        | some mp => min totalPagesApi mp
        | none => totalPagesApi
      match pagesLoop server days 2 (totalPages - 1).toNat
          (addBatch ⟨[], []⟩ (assignIds 0 (resultsOf first)))
          (resultsOf first).length [1] with
      | .error e => .error e
      | .ok r =>
        .ok ⟨r.1.consolidated,
          ⟨pyGet first "total", totalPages, totalPagesApi,
           r.1.consolidated.length, days⟩,
          r.2.2⟩

/-- Fixed-size chunking of a list, fuelled by its length so that the
recursion is structural: for positive `n` this is `l[0:n], l[n:2n], …`. -/
def chunksGo (n : Nat) : Nat → List Json → List (List Json)
  | _, [] => []
  | 0, _ :: _ => []
  | fuel + 1, a :: l => ((a :: l).take n) :: chunksGo n fuel ((a :: l).drop n)

/-- Fixed-size chunking of a list: `l[0:n], l[n:2n], …` for a positive `n`. -/
def chunks (n : Nat) (l : List Json) : List (List Json) := chunksGo n l.length l

/-- The batch-splitting comprehension in `filter_offers`:
`[offers[i:i+batch_size] for i in range(0, len(offers), batch_size)]`.
`range` raises `ValueError` on a zero step (`none` here); a negative step
with nonnegative stop `len(offers)` yields an empty range and hence an
empty batch list; a positive step yields the usual chunking. -/
def splitBatches (offers : List Json) (batchSize : Int) :
    Option (List (List Json)) :=
  if batchSize = 0 then none
  else if batchSize < 0 then some []
  else some (chunks batchSize.toNat offers)

/-- JSON whitespace accepted by `json.loads`. -/
def jsonWs (c : Char) : Bool := c = ' ' || c = '\t' || c = '\n' || c = '\r'

/-- Skip leading JSON whitespace. -/
def skipWs (s : List Char) : List Char := s.dropWhile jsonWs

/-- Consume a run of decimal digits, accumulating their value. -/
def lexDigits : Nat → List Char → Nat × List Char
  | acc, [] => (acc, [])
  | acc, c :: cs =>
    if c.isDigit then lexDigits (acc * 10 + (c.toNat - 48)) cs else (acc, c :: cs)

/-- JSON string escape codes handled by this model of `json.loads`
(`\uXXXX` is outside the model). -/
def unescapeChar (c : Char) : Option Char :=
  if c = '"' then some '"'
  else if c = '\\' then some '\\'
  else if c = '/' then some '/'
  else if c = 'n' then some '\n'
  else if c = 't' then some '\t'
  else if c = 'r' then some '\r'
  else if c = 'b' then some (Char.ofNat 8)
  else if c = 'f' then some (Char.ofNat 12)
  else none

/-- Lex a JSON string body after its opening quote. -/
def lexStr : List Char → Option (List Char × List Char)
  | [] => none
  | c :: cs =>
    if c = '"' then some ([], cs)
    else if c = '\\' then
      match cs with
      | [] => none
      | e :: cs2 =>
        match unescapeChar e with
        | none => none
        | some r => (lexStr cs2).map (fun p => (r :: p.1, p.2))
    else (lexStr cs).map (fun p => (c :: p.1, p.2))

/-- Python dict insertion: an existing key keeps its position and takes the
new value; a new key appends. -/
def dictInsert (fs : List (String × Json)) (k : String) (v : Json) :
    List (String × Json) :=
  if fs.any (fun p => p.1 = k) then
    fs.map (fun p => if p.1 = k then (k, v) else p)
  else fs ++ [(k, v)]

mutual

/-- Modelled from the Python standard library: the `json.loads` value parser
on the integer fragment of JSON, with recursion fuel. -/
def parseValue : Nat → List Char → Option (Json × List Char)
  | 0, _ => none
  | fuel + 1, s =>
    match skipWs s with
    | [] => none
    | c :: cs =>
      if c = '"' then (lexStr cs).map (fun p => (Json.str (String.mk p.1), p.2))
      else if c = 'n' then
        match cs with
        | 'u' :: 'l' :: 'l' :: rest => some (Json.null, rest)
        | _ => none
      else if c = 't' then
        match cs with
        | 'r' :: 'u' :: 'e' :: rest => some (Json.bool true, rest)
        | _ => none
      else if c = 'f' then
        match cs with
        | 'a' :: 'l' :: 's' :: 'e' :: rest => some (Json.bool false, rest)
        | _ => none
      else if c = '-' then
        match cs with
        | d :: _ =>
          if d.isDigit then
            let p := lexDigits 0 cs
            some (Json.num (-(p.1 : Int)), p.2)
          else none
        | [] => none
      else if c.isDigit then
        let p := lexDigits (c.toNat - 48) cs
        some (Json.num (p.1 : Int), p.2)
      else if c = '[' then
        match skipWs cs with
        | ']' :: rest => some (Json.arr [], rest)
        | s2 => (parseItems fuel s2).map (fun p => (Json.arr p.1, p.2))
      else if c = Char.ofNat 123 then
        match skipWs cs with
        | d :: rest2 =>
          if d = Char.ofNat 125 then some (Json.obj [], rest2)
          else
            (parseFields fuel (d :: rest2)).map (fun p =>
              (Json.obj (p.1.foldl (fun fs q => dictInsert fs q.1 q.2) []), p.2))
        | [] => none
      else none

/-- Parse the items of a non-empty JSON array up to the closing bracket. -/
def parseItems : Nat → List Char → Option (List Json × List Char)
  | 0, _ => none
  | fuel + 1, s =>
    match parseValue fuel s with
    | none => none
    | some (v, rest) =>
      match skipWs rest with
      | ',' :: r2 => (parseItems fuel r2).map (fun p => (v :: p.1, p.2))
      | ']' :: r2 => some ([v], r2)
      | _ => none

/-- Parse the fields of a non-empty JSON object up to the closing brace. -/
def parseFields : Nat → List Char → Option (List (String × Json) × List Char)
  | 0, _ => none
  | fuel + 1, s =>
    match skipWs s with
    | c :: cs =>
      if c = '"' then
        match lexStr cs with
        | none => none
        | some (kcs, rest) =>
          match skipWs rest with
          | ':' :: r2 =>
            (match parseValue fuel r2 with
             | none => none
             | some (v, r3) =>
               match skipWs r3 with
               | ',' :: r4 =>
                 (parseFields fuel r4).map
                   (fun p => ((String.mk kcs, v) :: p.1, p.2))
               | d :: r4 =>
                 if d = Char.ofNat 125 then some ([(String.mk kcs, v)], r4)
                 else none
               | [] => none)
          | _ => none
      else none
    | [] => none

end

/-- Modelled from the Python standard library: `json.loads` on the integer
fragment of JSON; trailing garbage makes the whole parse fail. -/
def parseJsonL (s : List Char) : Option Json :=
  match parseValue (2 * s.length + 8) s with
  | some (v, rest) => if (skipWs rest).isEmpty then some v else none
  | none => none

/-- The backquote character. -/
def backquote : Char := Char.ofNat 96

/-- The leading fence marker with the `json` language tag (` ```json `). -/
def fenceJson : List Char := [backquote, backquote, backquote, 'j', 's', 'o', 'n']

/-- The bare fence marker (` ``` `). -/
def fence3 : List Char := [backquote, backquote, backquote]

/-- A triple double-quote marker. -/
def dquote3 : List Char := List.replicate 3 (Char.ofNat 34)

/-- A triple single-quote marker. -/
def squote3 : List Char := List.replicate 3 (Char.ofNat 39)

/-- The condition for stripping a wrapping triple quote: the same marker
(either style) present on both ends. -/
def quoteWrapped (s : List Char) : Bool :=
  (dquote3.isPrefixOf s && listEndsWith dquote3 s)
    || (squote3.isPrefixOf s && listEndsWith squote3 s)

/-- `GeminiAnalyzer._clean_response_text`: strip surrounding whitespace, a
leading fence marker (with or without the `json` tag), a trailing fence
marker, and a wrapping triple quote present on both ends, re-stripping
after each removal. -/
def cleanResponseText (text : List Char) : List Char :=
  let s0 := pyStrip text
  let s1 := if fenceJson.isPrefixOf s0 then pyStrip (s0.drop 7) else s0
  let s2 := if fence3.isPrefixOf s1 then pyStrip (s1.drop 3) else s1
  let s3 := if listEndsWith fence3 s2 then pyStrip (dropLastN s2 3) else s2
  if quoteWrapped s3 then pyStrip (dropLastN (s3.drop 3) 3)
  else s3

/-- One part of a Gemini candidate's content (`part.text`). -/
structure GenPart where
  text : Option String
deriving DecidableEq

/-- A candidate's `content` with its `parts` (an absent and an empty `parts`
attribute are both falsy in the source, so both collapse to `[]`). -/
structure GenContent where
  parts : List GenPart
deriving DecidableEq

/-- One response candidate (`candidate.content` may be `None`). -/
structure GenCandidate where
  content : Option GenContent
deriving DecidableEq

/-- A Gemini response (`response.candidates`; an absent attribute is falsy
like an empty list). -/
structure GenResponse where
  candidates : List GenCandidate
deriving DecidableEq

/-- Outcome of one `client.models.generate_content` call: a raised
service-level exception, or a returned response object. -/
inductive GenOutcome where
  | exn : String → GenOutcome
  | resp : GenResponse → GenOutcome

/-- `GeminiAnalyzer._extract_text_from_response`: defensively walk
`candidates[0].content.parts[*].text`, concatenating the truthy text
fragments; `None` when any link of that chain is absent or empty. -/
def extractTextFromResponse (r : GenResponse) : Option String :=
  match r.candidates with
  | [] => none
  | cand :: _ =>
    match cand.content with
    | none => none
    | some content =>
      if content.parts.isEmpty then none
      else
        let texts := content.parts.filterMap
          (fun part => match part.text with
            | some t => if t ≠ "" then some t else none
            | none => none)
        if texts.isEmpty then none else some (String.join texts)

/-- Why one Gemini attempt failed: service exception, empty extracted text,
malformed JSON, or a JSON root that is not a list. -/
inductive AttemptFailure where
  | serviceExn : String → AttemptFailure
  | emptyText : AttemptFailure
  | parseError : AttemptFailure
  | nonListRoot : AttemptFailure
deriving DecidableEq

/-- The parse stage of one attempt: clean the fences, `json.loads`, and
require a list at the JSON root (`ValueError` otherwise, never coercion). -/
def attemptParse (text : String) : Except AttemptFailure (List Json) :=
  match parseJsonL (cleanResponseText text.data) with
  | none => .error .parseError
  | some (.arr xs) => .ok xs
  | some _ => .error .nonListRoot

/-- The `try` body of one attempt of `_call_gemini_with_retries`: extract
the text (falsy text raises), clean, parse, require a list root. -/
def processAttempt : GenOutcome → Except AttemptFailure (List Json)
  | .exn e => .error (.serviceExn e)
  | .resp r =>
    match extractTextFromResponse r with
    | none => .error .emptyText
    | some t => if t = "" then .error .emptyText else attemptParse t

/-- Whether an attempt outcome lands in the `except` block. -/
def attemptFails (o : GenOutcome) : Bool :=
  match processAttempt o with
  | .error _ => true
  | .ok _ => false

/-- A diagnostic artifact persisted for one failed attempt
(`raw_batch{batch}_attempt{attempt}_{ts}.json`). -/
structure CallArtifact where
  attempt : Nat
  failure : AttemptFailure
deriving DecidableEq

/-- The attempt loop of `_call_gemini_with_retries`: `attempt` is the
1-based counter and `fuel` the attempts left.  Every failed attempt
persists one artifact; after the last attempt the batch degrades to `[]`
instead of raising. -/
def callGeminiGo (env : Nat → GenOutcome) :
    Nat → Nat → List Json × List CallArtifact
  | _, 0 => ([], [])
  | attempt, fuel + 1 =>
    match processAttempt (env attempt) with
    | .ok xs => (xs, [])
    | .error e =>
      if fuel = 0 then ([], [⟨attempt, e⟩])
      else
        let r := callGeminiGo env (attempt + 1) fuel
        (r.1, ⟨attempt, e⟩ :: r.2)

/-- `GeminiAnalyzer._call_gemini_with_retries` for one batch, given each
attempt's outcome: the returned match list and the persisted artifacts. -/
def callGeminiWithRetries (env : Nat → GenOutcome) (maxAttempts : Nat) :
    List Json × List CallArtifact :=
  callGeminiGo env 1 maxAttempts

/-- The dedup key computed in `filter_offers` for one match record:
`m.get("id") or m.get("linkOffer") or json.dumps(m, sort_keys=True)`.
A non-dict record raises `AttributeError` at `m.get`; a record whose chosen
key is unhashable raises `TypeError` at the `seen_ids` membership test. -/
def consolidatorKey (m : Json) : Except String Json :=
  match m with
  | .obj _ =>
    let k := match truthyOpt (pyGet m "id") with
      | some v => v
      | none =>
        match truthyOpt (pyGet m "linkOffer") with
        | some v => v
        | none => Json.str (dumps m)
    if jsonHashable k then .ok k
    else .error "TypeError: unhashable type"
  | _ => .error "AttributeError: no attribute get"

/-- The per-record dedup loop of `filter_offers` over one batch result:
first occurrence of each key wins, insertion order is preserved. -/
def dedupBatch (seen acc : List Json) :
    List Json → Except String (List Json × List Json)
  | [] => .ok (seen, acc)
  | m :: ms =>
    match consolidatorKey m with
    | .error e => .error e
    | .ok k =>
      if k ∈ seen then dedupBatch seen acc ms
      else dedupBatch (k :: seen) (acc ++ [m]) ms

/-- A persisted diagnostic artifact tagged with its batch index. -/
structure BatchArtifact where
  batch : Nat
  attempt : Nat
  failure : AttemptFailure
deriving DecidableEq

/-- Observable behaviour of one `filter_offers` run: the returned match
list, the persisted diagnostic artifacts, and the content written to
`data/matches.json` (`none` when nothing was written). -/
structure FilterRun where
  result : List Json
  artifacts : List BatchArtifact
  saved : Option (List Json)
deriving DecidableEq

/-- The per-batch loop of `filter_offers`: batch indices start at 1, each
batch is called with retries, empty batch results are warned about and
skipped, the rest feed the first-wins dedup accumulator. -/
def filterBatches (env : Nat → Nat → GenOutcome) (maxAttempts : Nat) :
    Nat → List Json → List Json → List BatchArtifact → List (List Json) →
      Except String (List Json × List BatchArtifact)
  | _, _, acc, arts, [] => .ok (acc, arts)
  | bidx, seen, acc, arts, _b :: bs =>
    let r := callGeminiWithRetries (env bidx) maxAttempts
    let arts2 := arts ++ r.2.map (fun a => ⟨bidx, a.attempt, a.failure⟩)
    if r.1.isEmpty then filterBatches env maxAttempts (bidx + 1) seen acc arts2 bs
    else
      match dedupBatch seen acc r.1 with
      | .error e => .error e
      | .ok (seen2, acc2) =>
        filterBatches env maxAttempts (bidx + 1) seen2 acc2 arts2 bs

/-- `GeminiAnalyzer.filter_offers`: early return on an empty offer list
(nothing is saved), split into batches, run each batch through the retry
loop, consolidate first-wins, then save and return the result. -/
def filterOffers (env : Nat → Nat → GenOutcome) (maxAttempts : Nat)
    (offers : List Json) (batchSize : Int) : Except String FilterRun :=
  if offers.isEmpty then .ok ⟨[], [], none⟩
  else
    match splitBatches offers batchSize with
    | none => .error "ValueError: range() arg 3 must not be zero"
    | some batches =>
      match filterBatches env maxAttempts 1 [] [] [] batches with
      | .error e => .error e
      | .ok (res, arts) => .ok ⟨res, arts, some res⟩

/-- Default `MAX_ATTEMPTS` (`GEMINI_MAX_ATTEMPTS`, default `3`). -/
def MAX_ATTEMPTS : Nat := 3

/-- Default `BATCH_SIZE` (`GEMINI_BATCH_SIZE`, default `25`). -/
def BATCH_SIZE : Int := 25

/-- The match list each batch contributes, in submission order
(batch `bidx` is driven by the attempt outcomes `env bidx`). -/
def batchResultsFrom (env : Nat → Nat → GenOutcome) (maxAttempts : Nat) :
    Nat → List (List Json) → List (List Json)
  | _, [] => []
  | bidx, _ :: bs =>
    (callGeminiWithRetries (env bidx) maxAttempts).1
      :: batchResultsFrom env maxAttempts (bidx + 1) bs

/-- The artifacts each batch persists, tagged and concatenated in order. -/
def batchArtifactsFrom (env : Nat → Nat → GenOutcome) (maxAttempts : Nat) :
    Nat → List (List Json) → List BatchArtifact
  | _, [] => []
  | bidx, _ :: bs =>
    (callGeminiWithRetries (env bidx) maxAttempts).2.map
        (fun a => (⟨bidx, a.attempt, a.failure⟩ : BatchArtifact))
      ++ batchArtifactsFrom env maxAttempts (bidx + 1) bs

/-- Batch-list consolidation exactly as `filter_offers` performs it, given
the per-batch match lists: skip empty contributions, dedup the rest. -/
def consolidateLists (seen acc : List Json) :
    List (List Json) → Except String (List Json)
  | [] => .ok acc
  | l :: ls =>
    if l.isEmpty then consolidateLists seen acc ls
    else
      match dedupBatch seen acc l with
      | .error e => .error e
      | .ok (seen2, acc2) => consolidateLists seen2 acc2 ls

/-- The consolidator's dedup key as the amended specification words it: the
`id` field if present and truthy, else the `linkOffer` field if present and
truthy, else the deterministic structural serialization of the record. -/
def specConsolidatorKey (m : Json) : Json :=
  match truthyOpt (pyGet m "id") with
  | some v => v
  | none =>
    match truthyOpt (pyGet m "linkOffer") with
    | some v => v
    | none => Json.str (dumps m)

/-- First-occurrence-wins filtering in input order, as the specification
describes the consolidated output. -/
def specFirstWins (seen : List Json) : List Json → List Json
  | [] => []
  | m :: ms =>
    if specConsolidatorKey m ∈ seen then specFirstWins seen ms
    else m :: specFirstWins (specConsolidatorKey m :: seen) ms

/-- Modelled from the Python standard library: `html.escape(s, quote=True)`,
character by character. -/
def htmlEscapeChar (c : Char) : String :=
  if c = '&' then "&amp;"
  else if c = '<' then "&lt;"
  else if c = '>' then "&gt;"
  else if c = '"' then "&quot;"
  else if c = Char.ofNat 39 then "&#x27;"
  else String.singleton c

/-- Modelled from the Python standard library: `html.escape(s, quote=True)`. -/
def htmlEscape (s : String) : String := String.join (s.data.map htmlEscapeChar)

/-- `html.escape` applied to a field value: only strings have `.replace`,
any other value raises `AttributeError`. -/
def escapeVal : Json → Except String String
  | .str s => .ok (htmlEscape s)
  | _ => .error "AttributeError: html.escape on a non-string"

/-- One field of the per-offer block in `EmailGenerator.generate_html`:
`html.escape(offer.get(key, fallback))`. -/
def renderField (offer : Json) (key fallback : String) : Except String String :=
  escapeVal ((pyGet offer key).getD (Json.str fallback))

/-- The per-offer HTML block (the dedented f-string), assembled from the
four escaped fields. -/
def offerDiv (title employer linkOffer reason : String) : String :=
  "\n<div class=\"offer\">\n    <p class=\"title\">" ++ title ++
  "</p>\n    <p class=\"company\">" ++ employer ++
  "</p>\n    <p><strong>Razón:</strong> " ++ reason ++
  "</p>\n    <p><a class=\"link\" href=\"" ++ linkOffer ++
  "\">Ver oferta completa</a></p>\n</div>\n"

/-- `EmailGenerator.generate_html`, restricted to one offer record: escape
the four fields (with their literal fallbacks for missing keys) and build
the block. -/
def renderOffer (offer : Json) : Except String String :=
  match renderField offer "title" "Sin título" with
  | .error e => .error e
  | .ok title =>
    match renderField offer "employer" "Sin empresa" with
    | .error e => .error e
    | .ok employer =>
      match renderField offer "linkOffer" "#" with
      | .error e => .error e
      | .ok linkOffer =>
        match renderField offer "reason" "" with
        | .error e => .error e
        | .ok reason => .ok (offerDiv title employer linkOffer reason)

/-- Render every offer block, in order. -/
def renderOffers : List Json → Except String (List String)
  | [] => .ok []
  | o :: os =>
    match renderOffer o with
    | .error e => .error e
    | .ok h =>
      match renderOffers os with
      | .error e => .error e
      | .ok hs => .ok (h :: hs)

/-- The fixed document head of the digest (braces written as `\x7b`/`\x7d`). -/
def htmlHead : String :=
  "<!DOCTYPE html>\n<html lang=\"es\">\n<head>\n    <meta charset=\"UTF-8\">\n" ++
  "    <meta name=\"viewport\" content=\"width=device-width, initial-scale=1.0\">\n" ++
  "    <style>\n        body \x7b font-family: Arial, sans-serif; \x7d\n" ++
  "        .offer \x7b margin-bottom: 20px; border-bottom: 1px solid #ccc; " ++
  "padding-bottom: 10px; \x7d\n" ++
  "        .title \x7b font-size: 18px; font-weight: bold; color: #333; \x7d\n" ++
  "        .company, .link \x7b color: #0073b1; text-decoration: none; \x7d\n" ++
  "    </style>\n</head>\n<body>\n    <h2>Últimas Ofertas de Trabajo Filtradas</h2>\n"

/-- `EmailGenerator.generate_html`: the whole digest document written to
`data/email_body.html`; a placeholder paragraph replaces the offer blocks
when the list is empty. -/
def generateHtml (offers : List Json) : Except String String :=
  if offers.isEmpty then
    .ok (htmlHead ++ "<p>No se encontraron ofertas que coincidan con el perfil.</p>\n"
      ++ "</body></html>")
  else
    match renderOffers offers with
    | .error e => .error e
    | .ok bodies => .ok (htmlHead ++ String.join bodies ++ "</body></html>")

/-- Whether an `Except` computation raised. -/
def isRaised {ε α : Type} : Except ε α → Bool
  | .error _ => true
  | .ok _ => false

/-- Whether one HTTP attempt outcome is retried by `get_json`:
a transient network error or a 429/5xx status. -/
def retryableHttp : HttpOutcome → Bool
  | .netErr _ => true
  | .resp code _ => retryableStatus code

/-- Whether a JSON value is an array (a Python list). -/
def jsonIsArr : Json → Bool
  | .arr _ => true
  | _ => false

/-- The integers `start, start+1, …, start+n-1`. -/
def intSeq (start : Int) : Nat → List Int
  | 0 => []
  | n + 1 => start :: intSeq (start + 1) n

/-- Whether a server page response is present and passes the envelope
validation of `fetch_page`. -/
def okValidPage (r : Except String Json) : Bool :=
  match r with
  | .ok d => validEnvelope d
  | .error _ => false

/-- The `seen` key set of the specification's first-wins filter after
consuming a record list. -/
def specSeenAfter (seen : List Json) : List Json → List Json
  | [] => seen
  | m :: ms =>
    if specConsolidatorKey m ∈ seen then specSeenAfter seen ms
    else specSeenAfter (specConsolidatorKey m :: seen) ms

/-- A Gemini response whose single candidate carries one text part. -/
def respOfText (t : String) : GenOutcome :=
  .resp ⟨[⟨some ⟨[⟨some t⟩]⟩⟩]⟩

/-- Example attempt environment: batch 1 always raises a service
exception, every other batch returns a one-record list. -/
def exEnvC1 : Nat → Nat → GenOutcome :=
  fun b _ => if b = 1 then .exn "boom" else respOfText "[\x7b\"id\": \"1\"\x7d]"

/-- Example offers: two one-field records, split into two batches of one. -/
def exOffersC1 : List Json :=
  [Json.obj [("n", Json.num 1)], Json.obj [("n", Json.num 2)]]

/-- The run `filter_offers` produces on `exOffersC1` under `exEnvC1` with
batch size 1: batch 1 degrades to `[]` with three artifacts, batch 2
contributes its record. -/
def exRunC1 : FilterRun :=
  ⟨[Json.obj [("id", Json.str "1")]],
   [⟨1, 1, .serviceExn "boom"⟩, ⟨1, 2, .serviceExn "boom"⟩,
    ⟨1, 3, .serviceExn "boom"⟩],
   some [Json.obj [("id", Json.str "1")]]⟩

/-- Example listing server: every page is a valid envelope reporting
`totalPages = 5` with an empty result list. -/
def exServerC4 : Int → Int → Except String Json :=
  fun _ p => .ok (Json.obj [("results", Json.arr []), ("total", Json.num 0),
    ("totalPages", Json.num 5), ("page", Json.num p)])

/-- Page 1 of `exServerC4`. -/
def exPage1C4 : Json :=
  Json.obj [("results", Json.arr []), ("total", Json.num 0),
    ("totalPages", Json.num 5), ("page", Json.num 1)]

/-- A match record with an empty `linkOffer` and no `id`. -/
def exRecEmptyLink : Json := Json.obj [("linkOffer", Json.str "")]

/-- A different match record with the same empty `linkOffer` and no `id`. -/
def exRecEmptyLink2 : Json :=
  Json.obj [("linkOffer", Json.str ""), ("a", Json.num 1)]

theorem respOk_false_of_retryable {code : Nat} (h : retryableStatus code = true) :
    respOk code = false := by
  simp [retryableStatus] at h
  rcases h with (((h | h) | h) | h) | h <;> subst h <;> decide

theorem getJsonGo_exhaust (env : Nat → HttpOutcome) (maxRetries : Nat) :
    ∀ (fuel attempt : Nat) (backoff : ℚ),
      attempt + fuel = maxRetries + 1 →
      (∀ a, attempt ≤ a → a < attempt + fuel → retryableHttp (env a) = true) →
      (getJsonGo env maxRetries attempt backoff fuel).attemptsMade = fuel ∧
      isRaised (getJsonGo env maxRetries attempt backoff fuel).result = true ∧
      (getJsonGo env maxRetries attempt backoff fuel).sleeps =
        (List.range (fuel - 1)).map (fun i => backoff * 2 ^ i) := by
  intro fuel
  induction fuel with
  | zero => intro attempt backoff hsum hall; simp [getJsonGo, isRaised]
  | succ f ih =>
    intro attempt backoff hsum hall
    have hatt : retryableHttp (env attempt) = true := hall attempt le_rfl (by omega)
    cases ho : env attempt with
    | netErr e =>
      by_cases hlt : attempt < maxRetries
      · have ihr := ih (attempt + 1) (backoff * 2) (by omega)
          (fun a h1 h2 => hall a (by omega) (by omega))
        have hf : 1 ≤ f := by omega
        simp only [getJsonGo, ho, if_pos hlt]
        refine ⟨by simpa using ihr.1, by simpa using ihr.2.1, ?_⟩
        simp only [ihr.2.2]
        obtain ⟨g, rfl⟩ : ∃ g, f = g + 1 := ⟨f - 1, by omega⟩
        simp only [Nat.add_sub_cancel, List.range_succ_eq_map, List.map_cons,
          List.map_map]
        congr 1
        · ring
        · exact List.map_congr_left (fun i _ => by simp [Function.comp]; ring)
      · have hf : f = 0 := by omega
        subst hf
        simp [getJsonGo, ho, hlt, isRaised]
    | resp code body =>
      have hrs : retryableStatus code = true := by
        simpa [retryableHttp, ho] using hatt
      by_cases hlt : attempt < maxRetries
      · have ihr := ih (attempt + 1) (backoff * 2) (by omega)
          (fun a h1 h2 => hall a (by omega) (by omega))
        have hf : 1 ≤ f := by omega
        have hc : (retryableStatus code && decide (attempt < maxRetries)) = true := by
          simp [hrs, hlt]
        simp only [getJsonGo, ho, hc, if_true]
        refine ⟨by simpa using ihr.1, by simpa using ihr.2.1, ?_⟩
        simp only [ihr.2.2]
        obtain ⟨g, rfl⟩ : ∃ g, f = g + 1 := ⟨f - 1, by omega⟩
        simp only [Nat.add_sub_cancel, List.range_succ_eq_map, List.map_cons,
          List.map_map]
        congr 1
        · ring
        · exact List.map_congr_left (fun i _ => by simp [Function.comp]; ring)
      · have hf : f = 0 := by omega
        subst hf
        have hok := respOk_false_of_retryable hrs
        have hc : (retryableStatus code && decide (attempt < maxRetries)) = false := by
          simp [hlt]
        simp [getJsonGo, ho, hc, hok, isRaised]

/-- C2: a Transport `get_json` call whose every attempt yields a retryable
failure (for example HTTP 503 on all attempts) performs exactly
`max_retries` attempts in total (the first included), raises an error after
the last attempt rather than swallowing it, and the sleep before each
retried attempt doubles starting from the configured base backoff. -/
theorem transport_retry_exhaustion (env : Nat → HttpOutcome) (maxRetries : Nat)
    (backoff : ℚ)
    (h : ∀ a ∈ List.range' 1 maxRetries, retryableHttp (env a) = true) :
    (getJson env maxRetries backoff).attemptsMade = maxRetries ∧
    isRaised (getJson env maxRetries backoff).result = true ∧
    (getJson env maxRetries backoff).sleeps =
      (List.range (maxRetries - 1)).map (fun i => backoff * 2 ^ i) := by
  have hgo := getJsonGo_exhaust env maxRetries maxRetries 1 backoff (by omega)
    (fun a h1 h2 => h a (by rw [List.mem_range'_1]; omega))
  simpa [getJson] using hgo

/-- Witness for C2: a server answering 503 on every attempt, with the
default `max_retries = 3` and base backoff 1. -/
theorem transport_retry_exhaustion_witness :
    (∀ a ∈ List.range' 1 3,
        retryableHttp ((fun _ => HttpOutcome.resp 503 Json.null) a) = true) ∧
    ((getJson (fun _ => HttpOutcome.resp 503 Json.null) 3 1).attemptsMade = 3 ∧
     isRaised (getJson (fun _ => HttpOutcome.resp 503 Json.null) 3 1).result = true ∧
     (getJson (fun _ => HttpOutcome.resp 503 Json.null) 3 1).sleeps =
       (List.range (3 - 1)).map (fun i => (1 : ℚ) * 2 ^ i)) :=
  ⟨by decide,
   transport_retry_exhaustion (fun _ => HttpOutcome.resp 503 Json.null) 3 1 (by decide)⟩

theorem callGeminiGo_allFail (env : Nat → GenOutcome) :
    ∀ (fuel attempt : Nat),
      (∀ a, attempt ≤ a → a < attempt + fuel → attemptFails (env a) = true) →
      (callGeminiGo env attempt fuel).1 = [] ∧
      (callGeminiGo env attempt fuel).2.map CallArtifact.attempt =
        List.range' attempt fuel := by
  intro fuel
  induction fuel with
  | zero => intro attempt h; simp [callGeminiGo]
  | succ f ih =>
    intro attempt h
    have hfail := h attempt le_rfl (by omega)
    cases hp : processAttempt (env attempt) with
    | ok xs =>
      exfalso
      simp [attemptFails, hp] at hfail
    | error e =>
      by_cases hf : f = 0
      · subst hf
        simp [callGeminiGo, hp, List.range']
      · have ihr := ih (attempt + 1) (fun a h1 h2 => h a (by omega) (by omega))
        simp [callGeminiGo, hp, hf, ihr.1, ihr.2, List.range']

theorem filterBatches_eq (env : Nat → Nat → GenOutcome) (M : Nat) :
    ∀ (batches : List (List Json)) (bidx : Nat) (seen acc : List Json)
      (arts : List BatchArtifact),
      filterBatches env M bidx seen acc arts batches =
        (consolidateLists seen acc (batchResultsFrom env M bidx batches)).map
          (fun res => (res, arts ++ batchArtifactsFrom env M bidx batches)) := by
  intro batches
  induction batches with
  | nil =>
    intro bidx seen acc arts
    simp [filterBatches, batchResultsFrom, batchArtifactsFrom, consolidateLists,
      Except.map]
  | cons b bs ih =>
    intro bidx seen acc arts
    simp only [filterBatches, batchResultsFrom, batchArtifactsFrom,
      consolidateLists]
    by_cases he : (callGeminiWithRetries (env bidx) M).1.isEmpty
    · rw [if_pos he, if_pos he, ih]
      cases consolidateLists seen acc (batchResultsFrom env M (bidx + 1) bs) with
      | error e => simp [Except.map]
      | ok res => simp [Except.map, List.append_assoc]
    · rw [if_neg he, if_neg he]
      cases hd : dedupBatch seen acc (callGeminiWithRetries (env bidx) M).1 with
      | error e => simp [Except.map]
      | ok p =>
        obtain ⟨seen2, acc2⟩ := p
        simp only []
        rw [ih]
        cases consolidateLists seen2 acc2 (batchResultsFrom env M (bidx + 1) bs) with
        | error e => simp [Except.map]
        | ok res => simp [Except.map, List.append_assoc]

theorem consolidateLists_eraseIdx :
    ∀ (lists : List (List Json)) (i : Nat) (seen acc : List Json),
      lists.get? i = some [] →
      consolidateLists seen acc (lists.eraseIdx i) =
        consolidateLists seen acc lists := by
  intro lists
  induction lists with
  | nil => intro i seen acc h; simp at h
  | cons l ls ih =>
    intro i seen acc h
    cases i with
    | zero =>
      have hl : l = [] := by simpa using h
      subst hl
      simp [List.eraseIdx, consolidateLists]
    | succ i =>
      have hget : ls.get? i = some [] := by simpa using h
      simp only [List.eraseIdx, consolidateLists]
      by_cases he : l.isEmpty
      · rw [if_pos he, if_pos he]; exact ih i seen acc hget
      · rw [if_neg he, if_neg he]
        cases dedupBatch seen acc l with
        | error e => rfl
        | ok p => exact ih i p.1 p.2 hget

theorem batchResultsFrom_length (env : Nat → Nat → GenOutcome) (M : Nat) :
    ∀ (bsl : List (List Json)) (bidx : Nat),
      (batchResultsFrom env M bidx bsl).length = bsl.length := by
  intro bsl
  induction bsl with
  | nil => intro bidx; simp [batchResultsFrom]
  | cons b bs ih => intro bidx; simp [batchResultsFrom, ih]

theorem batchResultsFrom_get (env : Nat → Nat → GenOutcome) (M : Nat) :
    ∀ (bsl : List (List Json)) (bidx i : Nat), i < bsl.length →
      (batchResultsFrom env M bidx bsl).get? i =
        some (callGeminiWithRetries (env (bidx + i)) M).1 := by
  intro bsl
  induction bsl with
  | nil => intro bidx i h; simp at h
  | cons b bs ih =>
    intro bidx i h
    cases i with
    | zero => simp [batchResultsFrom]
    | succ i =>
      have h2 : i < bs.length := by simp at h; omega
      have hih := ih (bidx + 1) i h2
      rw [show bidx + (i + 1) = bidx + 1 + i by omega]
      simpa [batchResultsFrom] using hih

theorem filter_tag_ne (k bidx : Nat) (arts : List CallArtifact) (h : bidx ≠ k) :
    (arts.map (fun a => (⟨bidx, a.attempt, a.failure⟩ : BatchArtifact))).filter
        (fun a => a.batch = k) = [] := by
  induction arts with
  | nil => simp
  | cons a as ih => simp [List.filter, h, ih]

theorem filter_tag_eq (k : Nat) (arts : List CallArtifact) :
    (arts.map (fun a => (⟨k, a.attempt, a.failure⟩ : BatchArtifact))).filter
        (fun a => a.batch = k) =
      arts.map (fun a => (⟨k, a.attempt, a.failure⟩ : BatchArtifact)) := by
  induction arts with
  | nil => simp
  | cons a as ih => simp [List.filter, ih]

theorem batchArtifactsFrom_filter (env : Nat → Nat → GenOutcome) (M : Nat) :
    ∀ (bsl : List (List Json)) (bidx k : Nat),
      bidx ≤ k → k < bidx + bsl.length →
      (batchArtifactsFrom env M bidx bsl).filter (fun a => a.batch = k) =
        (callGeminiWithRetries (env k) M).2.map
          (fun a => (⟨k, a.attempt, a.failure⟩ : BatchArtifact)) := by
  intro bsl
  induction bsl with
  | nil => intro bidx k h1 h2; simp at h2; omega
  | cons b bs ih =>
    intro bidx k h1 h2
    simp only [batchArtifactsFrom, List.filter_append]
    by_cases hbk : bidx = k
    · subst hbk
      rw [filter_tag_eq]
      have hout : ∀ bsl2 b2, bidx < b2 →
          (batchArtifactsFrom env M b2 bsl2).filter (fun a => a.batch = bidx) = [] := by
        intro bsl2
        induction bsl2 with
        | nil => intro b2 hlt; simp [batchArtifactsFrom]
        | cons c cs ihc =>
          intro b2 hlt
          simp only [batchArtifactsFrom, List.filter_append]
          rw [filter_tag_ne _ _ _ (by omega), ihc (b2 + 1) (by omega)]
          rfl
      rw [hout bs (bidx + 1) (by omega)]
      simp
    · rw [filter_tag_ne _ _ _ hbk, ih (bidx + 1) k (by omega) (by simp at h2; omega)]
      rfl

theorem splitBatches_nil_getD (batchSize : Int) :
    (splitBatches [] batchSize).getD [] = [] := by
  by_cases h0 : batchSize = 0
  · simp [splitBatches, h0]
  · by_cases hneg : batchSize < 0
    · simp [splitBatches, h0, hneg]
    · simp [splitBatches, h0, hneg, chunks, chunksGo]

/-- C1: if every one of the `maxAttempts` attempts on batch `k` fails (empty
response text, malformed JSON, non-list root, or service exception), then
the retry call for that batch returns the empty list instead of raising,
persists exactly one diagnostic artifact per failed attempt (attempts
`1..maxAttempts`, also as seen among the whole run's artifacts), and the
pipeline continues: the run's result equals the consolidation of the
remaining batches' contributions alone. -/
theorem inference_batch_degrade (env : Nat → Nat → GenOutcome)
    (maxAttempts : Nat) (offers : List Json) (batchSize : Int) (k : Nat)
    (run : FilterRun)
    (hk1 : 1 ≤ k)
    (hk2 : k ≤ ((splitBatches offers batchSize).getD []).length)
    (hfail : ∀ a ∈ List.range' 1 maxAttempts, attemptFails (env k a) = true)
    (hrun : filterOffers env maxAttempts offers batchSize = .ok run) :
    (callGeminiWithRetries (env k) maxAttempts).1 = [] ∧
    (callGeminiWithRetries (env k) maxAttempts).2.map CallArtifact.attempt =
      List.range' 1 maxAttempts ∧
    (run.artifacts.filter (fun a => a.batch = k)).length = maxAttempts ∧
    consolidateLists [] []
        ((batchResultsFrom env maxAttempts 1
            ((splitBatches offers batchSize).getD [])).eraseIdx (k - 1)) =
      .ok run.result := by
  have hcall := callGeminiGo_allFail (env k) maxAttempts 1
    (fun a h1 h2 => hfail a (by rw [List.mem_range'_1]; omega))
  by_cases hoe : offers.isEmpty
  · exfalso
    have hnil : offers = [] := by simpa using hoe
    rw [hnil, splitBatches_nil_getD] at hk2
    simp at hk2
    omega
  · rw [filterOffers, if_neg hoe] at hrun
    cases hsp : splitBatches offers batchSize with
    | none => rw [hsp] at hrun; simp at hrun
    | some batches =>
      rw [hsp] at hrun
      have hrun2 : (match filterBatches env maxAttempts 1 [] [] [] batches with
          | Except.error e => (Except.error e : Except String FilterRun)
          | Except.ok (res, arts) =>
              Except.ok ⟨res, arts, some res⟩) = Except.ok run := hrun
      rw [filterBatches_eq] at hrun2
      have hk2' : k ≤ batches.length := by
        rw [hsp] at hk2
        simpa using hk2
      cases hco : consolidateLists [] []
          (batchResultsFrom env maxAttempts 1 batches) with
      | error e => rw [hco] at hrun2; simp [Except.map] at hrun2
      | ok res =>
        rw [hco] at hrun2
        simp only [Except.map] at hrun2
        have hruneq : run =
            ⟨res, [] ++ batchArtifactsFrom env maxAttempts 1 batches, some res⟩ :=
          (Except.ok.inj hrun2).symm
        subst hruneq
        simp only [Option.getD_some]
        refine ⟨hcall.1, hcall.2, ?_, ?_⟩
        · show ((([] : List BatchArtifact) ++
              batchArtifactsFrom env maxAttempts 1 batches).filter
                (fun a => a.batch = k)).length = maxAttempts
          rw [List.nil_append,
            batchArtifactsFrom_filter env maxAttempts batches 1 k hk1 (by omega)]
          rw [List.length_map]
          have hlen := congrArg List.length hcall.2
          simpa using hlen
        · show consolidateLists [] []
              ((batchResultsFrom env maxAttempts 1 batches).eraseIdx (k - 1)) =
            .ok res
          rw [consolidateLists_eraseIdx
            (batchResultsFrom env maxAttempts 1 batches) (k - 1) [] []]
          · exact hco
          · rw [batchResultsFrom_get env maxAttempts batches 1 (k - 1) (by omega)]
            rw [show 1 + (k - 1) = k by omega]
            exact congrArg some hcall.1

/-- Witness for C1: two one-record batches; batch 1 raises a service
exception on all three attempts, batch 2 parses to one match. -/
theorem inference_batch_degrade_witness :
    ((1 : Nat) ≤ 1) ∧
    (∀ a ∈ List.range' 1 3, attemptFails (exEnvC1 1 a) = true) ∧
    filterOffers exEnvC1 3 exOffersC1 1 = .ok exRunC1 ∧
    ((callGeminiWithRetries (exEnvC1 1) 3).1 = [] ∧
     (callGeminiWithRetries (exEnvC1 1) 3).2.map CallArtifact.attempt =
       List.range' 1 3 ∧
     (exRunC1.artifacts.filter (fun a => a.batch = 1)).length = 3 ∧
     consolidateLists [] []
         ((batchResultsFrom exEnvC1 3 1
             ((splitBatches exOffersC1 1).getD [])).eraseIdx 0) =
       .ok exRunC1.result) :=
  ⟨by decide, by decide, by decide,
   inference_batch_degrade exEnvC1 3 exOffersC1 1 1 exRunC1 (by decide)
     (by decide) (by decide) (by decide)⟩

/-- Counterexample to C3 as stated: two textually identical records (hence
with identical structural serializations) lacking both `_id` and
`linkOffer`, held by two distinct objects, do not collapse in the
Paginator: the fallback key is `str(id(item))` — the object identity — not
a structural hash, so both entries are kept and their keys differ. -/
theorem paginator_identity_fallback_cex :
    (addBatch ⟨[], []⟩
        [(1, Json.obj [("t", Json.str "x")]),
         (2, Json.obj [("t", Json.str "x")])]).consolidated =
      [(1, Json.obj [("t", Json.str "x")]),
       (2, Json.obj [("t", Json.str "x")])] ∧
    dumps (Json.obj [("t", Json.str "x")]) = dumps (Json.obj [("t", Json.str "x")]) ∧
    dedupeKey (1, Json.obj [("t", Json.str "x")]) ≠
      dedupeKey (2, Json.obj [("t", Json.str "x")]) := by decide

/-- C3 (amended): the Paginator's dedup identity is `str` of the `_id`
field if truthy, else `str` of the `linkOffer` field if truthy, else
`str(id(item))`, the object identity.  Consequently the same record object
accumulated twice collapses to one entry, two distinct objects lacking
both fields stay two entries even when structurally identical, and two
records sharing a truthy `_id` collapse to the first. -/
theorem paginator_dedup_amended (v u w idv : Json) (i j l : Nat)
    (hid : truthyOpt (pyGet v "_id") = none)
    (hlink : truthyOpt (pyGet v "linkOffer") = none)
    (hu : pyGet u "_id" = some idv) (htr : jsonTruthy idv = true)
    (hw : pyGet w "_id" = some idv) :
    dedupeKey (i, v) = pyStr (Json.num i) ∧
    (addBatch ⟨[], []⟩ [(i, v), (i, v)]).consolidated = [(i, v)] ∧
    (addBatch ⟨[], []⟩ [(1, v), (2, v)]).consolidated = [(1, v), (2, v)] ∧
    (addBatch ⟨[], []⟩ [(j, u), (l, w)]).consolidated = [(j, u)] := by
  have hkey : ∀ n : Nat, dedupeKey (n, v) = pyStr (Json.num n) := by
    intro n
    simp [dedupeKey, hid, hlink]
  have hukey : dedupeKey (j, u) = pyStr idv := by
    simp [dedupeKey, truthyOpt, hu, htr]
  have hwkey : dedupeKey (l, w) = pyStr idv := by
    simp [dedupeKey, truthyOpt, hw, htr]
  refine ⟨hkey i, ?_, ?_, ?_⟩
  · simp [addBatch]
  · simp only [addBatch, hkey]
    rw [if_neg (by simp), if_neg (by
      simp only [List.mem_cons, List.not_mem_nil, or_false]
      decide)]
    simp
  · simp only [addBatch, hukey, hwkey]
    rw [if_neg (by simp), if_pos (by simp)]
    simp

/-- Witness for the amended C3. -/
theorem paginator_dedup_amended_witness :
    (truthyOpt (pyGet (Json.obj [("t", Json.str "x")]) "_id") = none ∧
     truthyOpt (pyGet (Json.obj [("t", Json.str "x")]) "linkOffer") = none ∧
     pyGet (Json.obj [("_id", Json.str "A")]) "_id" = some (Json.str "A") ∧
     jsonTruthy (Json.str "A") = true ∧
     pyGet (Json.obj [("_id", Json.str "A"), ("z", Json.num 1)]) "_id" =
       some (Json.str "A")) ∧
    (dedupeKey (7, Json.obj [("t", Json.str "x")]) = pyStr (Json.num 7) ∧
     (addBatch ⟨[], []⟩ [(7, Json.obj [("t", Json.str "x")]),
        (7, Json.obj [("t", Json.str "x")])]).consolidated =
       [(7, Json.obj [("t", Json.str "x")])] ∧
     (addBatch ⟨[], []⟩ [(1, Json.obj [("t", Json.str "x")]),
        (2, Json.obj [("t", Json.str "x")])]).consolidated =
       [(1, Json.obj [("t", Json.str "x")]), (2, Json.obj [("t", Json.str "x")])] ∧
     (addBatch ⟨[], []⟩ [(3, Json.obj [("_id", Json.str "A")]),
        (4, Json.obj [("_id", Json.str "A"), ("z", Json.num 1)])]).consolidated =
       [(3, Json.obj [("_id", Json.str "A")])]) :=
  ⟨⟨by decide, by decide, by decide, by decide, by decide⟩,
   paginator_dedup_amended (Json.obj [("t", Json.str "x")])
     (Json.obj [("_id", Json.str "A")])
     (Json.obj [("_id", Json.str "A"), ("z", Json.num 1)])
     (Json.str "A") 7 3 4 (by decide) (by decide) (by decide) (by decide)
     (by decide)⟩

/-- Counterexample to C4 as stated: with the API reporting `totalPages = 5`
and `max_pages = 0`, `min(totalPages, max_pages) = 0`, so the claim says no
page is fetched — yet page 1 is always fetched first (`pages_traversed`
does equal the minimum). -/
theorem pagination_min_cex :
    (getAllOffers exServerC4 7 (some 0)).map FetchRun.fetchedPages = .ok [1] ∧
    ¬((1 : Int) ≤ min 5 0) := ⟨by decide, by decide⟩

theorem pagesLoop_ok (server : Int → Int → Except String Json) (days : Int) :
    ∀ (fuel : Nat) (p : Int) (st : FetchAcc) (nid : Nat) (fetched : List Int),
      (∀ q ∈ intSeq p fuel, okValidPage (server days q) = true) →
      ∃ st2 nid2,
        pagesLoop server days p fuel st nid fetched =
          .ok (st2, nid2, fetched ++ intSeq p fuel) := by
  intro fuel
  induction fuel with
  | zero =>
    intro p st nid fetched h
    exact ⟨st, nid, by simp [pagesLoop, intSeq]⟩
  | succ f ih =>
    intro p st nid fetched h
    have hq : okValidPage (server days p) = true :=
      h p (List.mem_cons_self _ _)
    cases hs : server days p with
    | error e => rw [hs] at hq; simp [okValidPage] at hq
    | ok d =>
      have hv : validEnvelope d = true := by
        rw [hs] at hq; simpa [okValidPage] using hq
      have hfp : fetchPage server days p = .ok d := by
        simp [fetchPage, hs, hv]
      have hrest : ∀ q ∈ intSeq (p + 1) f, okValidPage (server days q) = true :=
        fun q hqmem => h q (List.mem_cons_of_mem _ hqmem)
      obtain ⟨st2, nid2, hloop⟩ := ih (p + 1)
        (addBatch st (assignIds nid (resultsOf d)))
        (nid + (resultsOf d).length) (fetched ++ [p]) hrest
      refine ⟨st2, nid2, ?_⟩
      simp only [pagesLoop, hfp]
      rw [hloop]
      simp [intSeq, List.append_assoc]

/-- C4 (amended): provided the given `max_pages ≥ 1` and the API-reported
`totalPages ≥ 1` (with every needed page fetch passing validation), exactly
the pages `1..min(totalPages, max_pages)` are fetched, in strictly
increasing order, and the returned metadata's `pages_traversed` equals that
minimum.  (Outside that proviso — e.g. `max_pages = 0` — page 1 is still
fetched first, as the counterexample shows.) -/
theorem pagination_range_amended (server : Int → Int → Except String Json)
    (days T mp : Int) (d1 : Json)
    (h1 : server days 1 = .ok d1) (hv1 : validEnvelope d1 = true)
    (htp : pyGet d1 "totalPages" = some (Json.num T))
    (hT : 1 ≤ T) (hmp : 1 ≤ mp)
    (hrest : ∀ p ∈ intSeq 2 (min T mp - 1).toNat,
        okValidPage (server days p) = true) :
    ∃ run, getAllOffers server days (some mp) = .ok run ∧
      run.fetchedPages = intSeq 1 (min T mp).toNat ∧
      run.meta.pages_traversed = min T mp := by
  have hfp : fetchPage server days 1 = .ok d1 := by simp [fetchPage, h1, hv1]
  have hint : pyInt ((pyGet d1 "totalPages").getD (Json.num 1)) = .ok T := by
    rw [htp]; rfl
  obtain ⟨st2, nid2, hloop⟩ := pagesLoop_ok server days (min T mp - 1).toNat 2
    (addBatch ⟨[], []⟩ (assignIds 0 (resultsOf d1))) (resultsOf d1).length
    [1] hrest
  refine ⟨⟨st2.consolidated,
      ⟨pyGet d1 "total", min T mp, T, st2.consolidated.length, days⟩,
      [1] ++ intSeq 2 (min T mp - 1).toNat⟩, ?_, ?_, rfl⟩
  · simp only [getAllOffers, hfp, hint]
    rw [hloop]
  · show [1] ++ intSeq 2 (min T mp - 1).toNat = intSeq 1 (min T mp).toNat
    have hn : (min T mp).toNat = (min T mp - 1).toNat + 1 := by omega
    rw [hn]
    simp [intSeq]

/-- Witness for the amended C4: a five-page listing capped at two pages. -/
theorem pagination_range_amended_witness :
    (exServerC4 7 1 = .ok exPage1C4 ∧ validEnvelope exPage1C4 = true ∧
     pyGet exPage1C4 "totalPages" = some (Json.num 5) ∧
     (1 : Int) ≤ 5 ∧ (1 : Int) ≤ 2 ∧
     (∀ p ∈ intSeq 2 (min (5 : Int) 2 - 1).toNat,
        okValidPage (exServerC4 7 p) = true)) ∧
    (∃ run, getAllOffers exServerC4 7 (some 2) = .ok run ∧
      run.fetchedPages = intSeq 1 (min (5 : Int) 2).toNat ∧
      run.meta.pages_traversed = min (5 : Int) 2) :=
  ⟨⟨by decide, by decide, by decide, by decide, by decide, by decide⟩,
   pagination_range_amended exServerC4 7 5 2 exPage1C4 (by decide) (by decide)
     (by decide) (by decide) (by decide) (by decide)⟩

/-- Counterexample to C5 as stated: two distinct records lacking `id` and
agreeing on a present (but empty) `linkOffer` field should share the key
`""` per the claim and collapse to one entry — but the code treats the
falsy `linkOffer` like an absent one and falls through to the synthetic
serialization key, which differs between the two records, so both are
kept. -/
theorem consolidator_key_cex :
    (dedupBatch [] [] [exRecEmptyLink, exRecEmptyLink2]).map Prod.snd =
      .ok [exRecEmptyLink, exRecEmptyLink2] ∧
    pyGet exRecEmptyLink "id" = none ∧
    pyGet exRecEmptyLink2 "id" = none ∧
    pyGet exRecEmptyLink "linkOffer" = pyGet exRecEmptyLink2 "linkOffer" ∧
    exRecEmptyLink ≠ exRecEmptyLink2 := by decide

theorem consolidatorKey_ok_eq (m : Json)
    (h : isRaised (consolidatorKey m) = false) :
    consolidatorKey m = .ok (specConsolidatorKey m) := by
  cases m with
  | obj fs =>
    simp only [consolidatorKey] at h ⊢
    split at h
    · next hh =>
      rw [if_pos hh]
      rfl
    · simp [isRaised] at h
  | null => simp [consolidatorKey, isRaised] at h
  | bool b => simp [consolidatorKey, isRaised] at h
  | num n => simp [consolidatorKey, isRaised] at h
  | str s => simp [consolidatorKey, isRaised] at h
  | arr xs => simp [consolidatorKey, isRaised] at h

theorem dedupBatch_spec :
    ∀ (ms seen acc : List Json),
      (∀ m ∈ ms, isRaised (consolidatorKey m) = false) →
      dedupBatch seen acc ms =
        .ok (specSeenAfter seen ms, acc ++ specFirstWins seen ms) := by
  intro ms
  induction ms with
  | nil => intro seen acc h; simp [dedupBatch, specSeenAfter, specFirstWins]
  | cons m ms ih =>
    intro seen acc h
    have hm := consolidatorKey_ok_eq m (h m (List.mem_cons_self _ _))
    have hrest : ∀ x ∈ ms, isRaised (consolidatorKey x) = false :=
      fun x hx => h x (List.mem_cons_of_mem _ hx)
    simp only [dedupBatch, hm, specSeenAfter, specFirstWins]
    by_cases hin : specConsolidatorKey m ∈ seen
    · rw [if_pos hin, if_pos hin, if_pos hin]
      exact ih seen acc hrest
    · rw [if_neg hin, if_neg hin, if_neg hin]
      rw [ih (specConsolidatorKey m :: seen) (acc ++ [m]) hrest]
      simp

theorem specFirstWins_append :
    ∀ (l rest seen : List Json),
      specFirstWins seen (l ++ rest) =
        specFirstWins seen l ++ specFirstWins (specSeenAfter seen l) rest := by
  intro l
  induction l with
  | nil => intro rest seen; simp [specFirstWins, specSeenAfter]
  | cons m ms ih =>
    intro rest seen
    simp only [List.cons_append, specFirstWins, specSeenAfter]
    by_cases hin : specConsolidatorKey m ∈ seen
    · rw [if_pos hin, if_pos hin, if_pos hin]
      exact ih rest seen
    · rw [if_neg hin, if_neg hin, if_neg hin]
      simp [ih rest (specConsolidatorKey m :: seen)]

theorem consolidateLists_spec :
    ∀ (lists : List (List Json)) (seen acc : List Json),
      (∀ m ∈ lists.flatten, isRaised (consolidatorKey m) = false) →
      consolidateLists seen acc lists =
        .ok (acc ++ specFirstWins seen lists.flatten) := by
  intro lists
  induction lists with
  | nil => intro seen acc h; simp [consolidateLists, specFirstWins]
  | cons l ls ih =>
    intro seen acc h
    have hl : ∀ m ∈ l, isRaised (consolidatorKey m) = false := by
      intro m hm
      apply h
      rw [List.flatten_cons]
      exact List.mem_append_left _ hm
    have hls : ∀ m ∈ ls.flatten, isRaised (consolidatorKey m) = false := by
      intro m hm
      apply h
      rw [List.flatten_cons]
      exact List.mem_append_right _ hm
    by_cases he : l.isEmpty
    · have hle : l = [] := by simpa using he
      subst hle
      simp only [consolidateLists]
      rw [if_pos he]
      simpa [List.flatten_cons] using ih seen acc hls
    · simp only [consolidateLists]
      rw [if_neg he, dedupBatch_spec l seen acc hl]
      show consolidateLists (specSeenAfter seen l)
          (acc ++ specFirstWins seen l) ls =
        Except.ok (acc ++ specFirstWins seen ((l :: ls).flatten))
      rw [ih _ _ hls, List.flatten_cons, specFirstWins_append]
      simp [List.append_assoc]

/-- C5 (amended): the Consolidator's dedup key for a record is its `id`
field if present and truthy (a non-empty string in particular), else its
`linkOffer` field if present and truthy, else the deterministic structural
serialization `json.dumps(m, sort_keys=True)`; the first occurrence of
each key wins, and the output preserves insertion order across batches in
batch submission order (the first-wins filter over the concatenation of
the per-batch results in submission order). -/
theorem consolidator_dedup_amended (lists : List (List Json))
    (h : ∀ m ∈ lists.flatten, isRaised (consolidatorKey m) = false) :
    consolidateLists [] [] lists = .ok (specFirstWins [] lists.flatten) ∧
    ∀ m ∈ lists.flatten, consolidatorKey m = .ok (specConsolidatorKey m) :=
  ⟨by simpa using consolidateLists_spec lists [] [] h,
   fun m hm => consolidatorKey_ok_eq m (h m hm)⟩

/-- Witness for the amended C5: two batches with a duplicate `id` across
batches and a `linkOffer`-keyed record; the duplicate is dropped, order is
batch order. -/
theorem consolidator_dedup_amended_witness :
    (∀ m ∈ ([[Json.obj [("id", Json.str "A")], Json.obj [("id", Json.str "B")]],
             [Json.obj [("id", Json.str "A"), ("x", Json.num 1)],
              Json.obj [("linkOffer", Json.str "L")]]] : List (List Json)).flatten,
        isRaised (consolidatorKey m) = false) ∧
    (consolidateLists [] []
        [[Json.obj [("id", Json.str "A")], Json.obj [("id", Json.str "B")]],
         [Json.obj [("id", Json.str "A"), ("x", Json.num 1)],
          Json.obj [("linkOffer", Json.str "L")]]] =
      .ok (specFirstWins []
        ([[Json.obj [("id", Json.str "A")], Json.obj [("id", Json.str "B")]],
          [Json.obj [("id", Json.str "A"), ("x", Json.num 1)],
           Json.obj [("linkOffer", Json.str "L")]]] : List (List Json)).flatten) ∧
     ∀ m ∈ ([[Json.obj [("id", Json.str "A")], Json.obj [("id", Json.str "B")]],
             [Json.obj [("id", Json.str "A"), ("x", Json.num 1)],
              Json.obj [("linkOffer", Json.str "L")]]] : List (List Json)).flatten,
        consolidatorKey m = .ok (specConsolidatorKey m)) :=
  ⟨by decide,
   consolidator_dedup_amended
     [[Json.obj [("id", Json.str "A")], Json.obj [("id", Json.str "B")]],
      [Json.obj [("id", Json.str "A"), ("x", Json.num 1)],
       Json.obj [("linkOffer", Json.str "L")]]] (by decide)⟩

theorem lstrip_cons_of_not_space {c : Char} (h : pyIsSpace c = false)
    (xs : List Char) : lstrip (c :: xs) = c :: xs := by
  simp [lstrip, List.dropWhile_cons, h]

theorem lstrip_cons_of_space {c : Char} (h : pyIsSpace c = true)
    (xs : List Char) : lstrip (c :: xs) = lstrip xs := by
  simp [lstrip, List.dropWhile_cons, h]

theorem rstrip_append_of_not_space {c : Char} (h : pyIsSpace c = false)
    (xs : List Char) : rstrip (xs ++ [c]) = xs ++ [c] := by
  simp [rstrip, List.reverse_append, List.dropWhile_cons, h]

theorem head_not_space_of_lstrip_fix {c : Char} {cs : List Char}
    (h : lstrip (c :: cs) = c :: cs) : pyIsSpace c = false := by
  by_contra hc
  have hc' : pyIsSpace c = true := by simpa using hc
  rw [lstrip_cons_of_space hc'] at h
  have hlen := congrArg List.length h
  have hle : (lstrip cs).length ≤ cs.length :=
    (List.dropWhile_sublist pyIsSpace).length_le
  simp at hlen
  omega

theorem rstrip_fix_dropWhile {s : List Char} (h : rstrip s = s) :
    s.reverse.dropWhile pyIsSpace = s.reverse := by
  have h2 := congrArg List.reverse h
  simpa [rstrip] using h2

theorem rstrip_append_cons_of_fix {s : List Char} (hr : rstrip s = s)
    {c : Char} (hc : pyIsSpace c = true) : rstrip (s ++ [c]) = s := by
  have h1 : (s ++ [c]).reverse = c :: s.reverse := by simp
  rw [rstrip, h1, List.dropWhile_cons, if_pos hc, rstrip_fix_dropWhile hr,
    List.reverse_reverse]

theorem isPrefixOf_self_append (p xs : List Char) :
    p.isPrefixOf (p ++ xs) = true := by
  induction p with
  | nil => simp [List.isPrefixOf]
  | cons a as ih => simp [List.isPrefixOf, ih]

theorem isPrefixOf_cons_ne {a b : Char} (h : a ≠ b) (as bs : List Char) :
    (a :: as).isPrefixOf (b :: bs) = false := by
  simp [List.isPrefixOf, h]

theorem lstrip_fenceJson (X : List Char) :
    lstrip (fenceJson ++ X) = fenceJson ++ X := by
  have h : fenceJson ++ X =
      backquote :: ([backquote, backquote, 'j', 's', 'o', 'n'] ++ X) := rfl
  rw [h, lstrip_cons_of_not_space (by decide)]

theorem lstrip_fence3 (X : List Char) :
    lstrip (fence3 ++ X) = fence3 ++ X := by
  have h : fence3 ++ X = backquote :: ([backquote, backquote] ++ X) := rfl
  rw [h, lstrip_cons_of_not_space (by decide)]

theorem lstrip_dquote3 (X : List Char) :
    lstrip (dquote3 ++ X) = dquote3 ++ X := by
  have h : dquote3 ++ X =
      Char.ofNat 34 :: ([Char.ofNat 34, Char.ofNat 34] ++ X) := rfl
  rw [h, lstrip_cons_of_not_space (by decide)]

theorem rstrip_append_fence3 (Y : List Char) :
    rstrip (Y ++ fence3) = Y ++ fence3 := by
  have h1 : Y ++ fence3 = (Y ++ [backquote, backquote]) ++ [backquote] := by
    simp [fence3]
  rw [h1, rstrip_append_of_not_space (by decide)]

theorem rstrip_append_dquote3 (Y : List Char) :
    rstrip (Y ++ dquote3) = Y ++ dquote3 := by
  have h1 : Y ++ dquote3 =
      (Y ++ [Char.ofNat 34, Char.ofNat 34]) ++ [Char.ofNat 34] := by
    simp [dquote3]
  rw [h1, rstrip_append_of_not_space (by decide)]

theorem dropLastN_append_len (Y t : List Char) :
    dropLastN (Y ++ t) t.length = Y := by
  simp only [dropLastN, List.length_append, Nat.add_sub_cancel]
  exact List.take_left Y t

theorem listEndsWith_append (t Y : List Char) :
    listEndsWith t (Y ++ t) = true := by
  simp only [listEndsWith, List.reverse_append]
  exact isPrefixOf_self_append _ _

theorem clean_fenced_json (s : List Char) (c : Char) (cs : List Char)
    (hs : s = c :: cs) (hcb : c ≠ backquote)
    (hl : lstrip s = s) (hr : rstrip s = s) (hq : quoteWrapped s = false) :
    cleanResponseText (fenceJson ++ '\n' :: (s ++ '\n' :: fence3)) = s := by
  have hcw : pyIsSpace c = false := head_not_space_of_lstrip_fix (hs ▸ hl)
  have hsY : ∀ Y : List Char, lstrip (s ++ Y) = s ++ Y := by
    intro Y
    rw [hs]
    show lstrip (c :: (cs ++ Y)) = c :: (cs ++ Y)
    exact lstrip_cons_of_not_space hcw _
  have ha : s ++ '\n' :: fence3 = (s ++ ['\n']) ++ fence3 := by simp
  have hassoc : fenceJson ++ '\n' :: (s ++ '\n' :: fence3) =
      (fenceJson ++ '\n' :: s ++ ['\n']) ++ fence3 := by simp
  have h0 : pyStrip (fenceJson ++ '\n' :: (s ++ '\n' :: fence3)) =
      fenceJson ++ '\n' :: (s ++ '\n' :: fence3) := by
    rw [pyStrip, lstrip_fenceJson, hassoc, rstrip_append_fence3]
  have hpre : fenceJson.isPrefixOf
      (fenceJson ++ '\n' :: (s ++ '\n' :: fence3)) = true :=
    isPrefixOf_self_append _ _
  have hdrop7 : (fenceJson ++ '\n' :: (s ++ '\n' :: fence3)).drop 7 =
      '\n' :: (s ++ '\n' :: fence3) := by
    rw [show (7 : Nat) = fenceJson.length from rfl]
    exact List.drop_left _ _
  have hmid : pyStrip ('\n' :: (s ++ '\n' :: fence3)) = s ++ '\n' :: fence3 := by
    rw [pyStrip, lstrip_cons_of_space (by decide), hsY, ha,
      rstrip_append_fence3]
  have hpre2 : fence3.isPrefixOf (s ++ '\n' :: fence3) = false := by
    rw [hs]
    show fence3.isPrefixOf (c :: (cs ++ '\n' :: fence3)) = false
    rw [show fence3 = backquote :: [backquote, backquote] from rfl]
    exact isPrefixOf_cons_ne (Ne.symm hcb) _ _
  have hends : listEndsWith fence3 (s ++ '\n' :: fence3) = true := by
    rw [ha]
    exact listEndsWith_append _ _
  have hdl : dropLastN (s ++ '\n' :: fence3) 3 = s ++ ['\n'] := by
    rw [ha, show (3 : Nat) = fence3.length from rfl, dropLastN_append_len]
  have hlast : pyStrip (s ++ ['\n']) = s := by
    rw [pyStrip, hsY, rstrip_append_cons_of_fix hr (by decide)]
  simp only [cleanResponseText, h0, hpre, if_true, hdrop7, hmid, hpre2,
    if_false, hends, hdl, hlast, hq]
  simp [hends, hdl, hlast, hq]

theorem clean_fenced_bare (s : List Char) (c : Char) (cs : List Char)
    (hs : s = c :: cs) (_hcb : c ≠ backquote)
    (hl : lstrip s = s) (hr : rstrip s = s) (hq : quoteWrapped s = false) :
    cleanResponseText (fence3 ++ '\n' :: (s ++ '\n' :: fence3)) = s := by
  have hcw : pyIsSpace c = false := head_not_space_of_lstrip_fix (hs ▸ hl)
  have hsY : ∀ Y : List Char, lstrip (s ++ Y) = s ++ Y := by
    intro Y
    rw [hs]
    show lstrip (c :: (cs ++ Y)) = c :: (cs ++ Y)
    exact lstrip_cons_of_not_space hcw _
  have ha : s ++ '\n' :: fence3 = (s ++ ['\n']) ++ fence3 := by simp
  have hassoc : fence3 ++ '\n' :: (s ++ '\n' :: fence3) =
      (fence3 ++ '\n' :: s ++ ['\n']) ++ fence3 := by simp
  have h0 : pyStrip (fence3 ++ '\n' :: (s ++ '\n' :: fence3)) =
      fence3 ++ '\n' :: (s ++ '\n' :: fence3) := by
    rw [pyStrip, lstrip_fence3, hassoc, rstrip_append_fence3]
  have hpreJ : fenceJson.isPrefixOf
      (fence3 ++ '\n' :: (s ++ '\n' :: fence3)) = false := rfl
  have hpre3 : fence3.isPrefixOf
      (fence3 ++ '\n' :: (s ++ '\n' :: fence3)) = true :=
    isPrefixOf_self_append _ _
  have hdrop3 : (fence3 ++ '\n' :: (s ++ '\n' :: fence3)).drop 3 =
      '\n' :: (s ++ '\n' :: fence3) := by
    rw [show (3 : Nat) = fence3.length from rfl]
    exact List.drop_left _ _
  have hmid : pyStrip ('\n' :: (s ++ '\n' :: fence3)) = s ++ '\n' :: fence3 := by
    rw [pyStrip, lstrip_cons_of_space (by decide), hsY, ha,
      rstrip_append_fence3]
  have hends : listEndsWith fence3 (s ++ '\n' :: fence3) = true := by
    rw [ha]
    exact listEndsWith_append _ _
  have hdl : dropLastN (s ++ '\n' :: fence3) 3 = s ++ ['\n'] := by
    rw [ha, show (3 : Nat) = fence3.length from rfl, dropLastN_append_len]
  have hlast : pyStrip (s ++ ['\n']) = s := by
    rw [pyStrip, hsY, rstrip_append_cons_of_fix hr (by decide)]
  have hpre3p : fence3 <+: (fence3 ++ '\n' :: (s ++ '\n' :: fence3)) :=
    List.isPrefixOf_iff_prefix.mp hpre3
  have hpreJp : ¬ fenceJson <+: (fence3 ++ '\n' :: (s ++ '\n' :: fence3)) := by
    rw [← List.isPrefixOf_iff_prefix, hpreJ]
    simp
  simp only [cleanResponseText, h0, hpreJ, hpre3, if_true, if_false, hdrop3,
    hmid, hends, hdl, hlast, hq]
  simp [hpreJp, hpre3p, hdrop3, hmid, hends, hdl, hlast, hq]

theorem clean_quoted (s : List Char)
    (hl : lstrip s = s) (hr : rstrip s = s) :
    cleanResponseText (dquote3 ++ (s ++ dquote3)) = s := by
  have hassoc : dquote3 ++ (s ++ dquote3) = (dquote3 ++ s) ++ dquote3 := by
    simp
  have h0 : pyStrip (dquote3 ++ (s ++ dquote3)) =
      dquote3 ++ (s ++ dquote3) := by
    rw [pyStrip, lstrip_dquote3, hassoc, rstrip_append_dquote3]
  have hpreJ : fenceJson.isPrefixOf (dquote3 ++ (s ++ dquote3)) = false := rfl
  have hpre3 : fence3.isPrefixOf (dquote3 ++ (s ++ dquote3)) = false := rfl
  have hends3 : listEndsWith fence3 (dquote3 ++ (s ++ dquote3)) = false := by
    rw [hassoc]
    simp only [listEndsWith, List.reverse_append]
    rw [show fence3.reverse = backquote :: [backquote, backquote] from rfl]
    rw [show dquote3.reverse =
      Char.ofNat 34 :: [Char.ofNat 34, Char.ofNat 34] from rfl]
    exact isPrefixOf_cons_ne (by decide) _ _
  have hqw : quoteWrapped (dquote3 ++ (s ++ dquote3)) = true := by
    have h1 : dquote3.isPrefixOf (dquote3 ++ (s ++ dquote3)) = true :=
      isPrefixOf_self_append _ _
    have h2 : listEndsWith dquote3 (dquote3 ++ (s ++ dquote3)) = true := by
      rw [hassoc]
      exact listEndsWith_append _ _
    simp [quoteWrapped, h1, h2]
  have hdrop3 : (dquote3 ++ (s ++ dquote3)).drop 3 = s ++ dquote3 := by
    rw [show (3 : Nat) = dquote3.length from rfl]
    exact List.drop_left _ _
  have hdl : dropLastN (s ++ dquote3) 3 = s := by
    rw [show (3 : Nat) = dquote3.length from rfl, dropLastN_append_len]
  have hfin : pyStrip s = s := by rw [pyStrip, hl, hr]
  have hpreJp : ¬ fenceJson <+: (dquote3 ++ (s ++ dquote3)) := by
    rw [← List.isPrefixOf_iff_prefix, hpreJ]
    simp
  have hpre3p : ¬ fence3 <+: (dquote3 ++ (s ++ dquote3)) := by
    rw [← List.isPrefixOf_iff_prefix, hpre3]
    simp
  simp only [cleanResponseText, h0, hpreJ, hpre3, if_false, hends3, hqw,
    if_true, hdrop3, hdl, hfin]
  simp [hpreJp, hpre3p, hends3, hqw, hdrop3, hdl, hfin]

theorem attemptParse_nonlist (t : String) (v : Json)
    (hp : parseJsonL (cleanResponseText t.data) = some v)
    (hv : jsonIsArr v = false) :
    attemptParse t = .error .nonListRoot := by
  simp only [attemptParse, hp]
  cases v <;> simp [jsonIsArr] at hv ⊢

/-- C6: the sanitizer strips a leading fenced-code marker whether or not it
carries the `json` language tag, strips a trailing fence marker, and strips
a wrapping triple-quote marker when both ends carry it (shown on inputs
whose body is already stripped, does not begin with a backquote, and is
not itself triple-quote-wrapped); and the cleaned result is then required
to parse as JSON with a list at the root: a parse yielding a non-list root
is classified as a shape error, never coerced into a list. -/
theorem sanitizer_spec (s : List Char) (c : Char) (cs : List Char)
    (t : String) (v : Json)
    (hs : s = c :: cs) (hcb : c ≠ backquote)
    (hl : lstrip s = s) (hr : rstrip s = s) (hq : quoteWrapped s = false)
    (hp : parseJsonL (cleanResponseText t.data) = some v)
    (hv : jsonIsArr v = false) :
    cleanResponseText (fenceJson ++ '\n' :: (s ++ '\n' :: fence3)) = s ∧
    cleanResponseText (fence3 ++ '\n' :: (s ++ '\n' :: fence3)) = s ∧
    cleanResponseText (dquote3 ++ (s ++ dquote3)) = s ∧
    attemptParse t = .error .nonListRoot :=
  ⟨clean_fenced_json s c cs hs hcb hl hr hq,
   clean_fenced_bare s c cs hs hcb hl hr hq,
   clean_quoted s hl hr,
   attemptParse_nonlist t v hp hv⟩

/-- Witness for C6: body `[1]`, and the valid-JSON scalar response `7`
whose root is not a list. -/
theorem sanitizer_spec_witness :
    ("[1]".data = '[' :: "1]".data ∧ ('[' : Char) ≠ backquote ∧
     lstrip "[1]".data = "[1]".data ∧ rstrip "[1]".data = "[1]".data ∧
     quoteWrapped "[1]".data = false ∧
     parseJsonL (cleanResponseText "7".data) = some (Json.num 7) ∧
     jsonIsArr (Json.num 7) = false) ∧
    (cleanResponseText (fenceJson ++ '\n' :: ("[1]".data ++ '\n' :: fence3)) =
       "[1]".data ∧
     cleanResponseText (fence3 ++ '\n' :: ("[1]".data ++ '\n' :: fence3)) =
       "[1]".data ∧
     cleanResponseText (dquote3 ++ ("[1]".data ++ dquote3)) = "[1]".data ∧
     attemptParse "7" = .error .nonListRoot) :=
  ⟨⟨by decide, by decide, by decide, by decide, by decide, by decide,
    by decide⟩,
   sanitizer_spec "[1]".data '[' "1]".data "7" (Json.num 7) (by decide)
     (by decide) (by decide) (by decide) (by decide) (by decide) (by decide)⟩

theorem chunksGo_nil (n fuel : Nat) : chunksGo n fuel [] = [] := by
  cases fuel <;> rfl

theorem chunksGo_flatten (n : Nat) (hn : 1 ≤ n) :
    ∀ (fuel : Nat) (l : List Json), l.length ≤ fuel →
      (chunksGo n fuel l).flatten = l := by
  intro fuel
  induction fuel with
  | zero =>
    intro l h
    have hl : l = [] := List.eq_nil_of_length_eq_zero (by omega)
    subst hl
    simp [chunksGo]
  | succ f ih =>
    intro l h
    cases l with
    | nil => simp [chunksGo]
    | cons a l2 =>
      simp only [chunksGo, List.flatten_cons]
      rw [ih ((a :: l2).drop n) (by simp [List.length_drop] at h ⊢; omega)]
      exact List.take_append_drop n (a :: l2)

theorem chunksGo_mem (n : Nat) (hn : 1 ≤ n) :
    ∀ (fuel : Nat) (l : List Json) (b : List Json), l.length ≤ fuel →
      b ∈ chunksGo n fuel l → b ≠ [] ∧ b.length ≤ n := by
  intro fuel
  induction fuel with
  | zero =>
    intro l b h hb
    have hl : l = [] := List.eq_nil_of_length_eq_zero (by omega)
    subst hl
    simp [chunksGo] at hb
  | succ f ih =>
    intro l b h hb
    cases l with
    | nil => simp [chunksGo] at hb
    | cons a l2 =>
      simp only [chunksGo, List.mem_cons] at hb
      rcases hb with hb | hb
      · subst hb
        constructor
        · have hlen : ((a :: l2).take n).length = min n (l2.length + 1) := by
            simp [List.length_take]
          intro hnil
          rw [hnil] at hlen
          simp at hlen
          omega
        · exact List.length_take_le n (a :: l2)
      · exact ih ((a :: l2).drop n) b
          (by simp [List.length_drop] at h ⊢; omega) hb

theorem chunksGo_dropLast_len (n : Nat) (hn : 1 ≤ n) :
    ∀ (fuel : Nat) (l : List Json) (b : List Json), l.length ≤ fuel →
      b ∈ (chunksGo n fuel l).dropLast → b.length = n := by
  intro fuel
  induction fuel with
  | zero =>
    intro l b h hb
    have hl : l = [] := List.eq_nil_of_length_eq_zero (by omega)
    subst hl
    simp [chunksGo] at hb
  | succ f ih =>
    intro l b h hb
    cases l with
    | nil => simp [chunksGo] at hb
    | cons a l2 =>
      simp only [chunksGo] at hb
      by_cases hrest : chunksGo n f ((a :: l2).drop n) = []
      · rw [hrest] at hb
        simp at hb
      · rw [List.dropLast_cons_of_ne_nil hrest, List.mem_cons] at hb
        rcases hb with hb | hb
        · subst hb
          have hdropne : (a :: l2).drop n ≠ [] := by
            intro hdn
            rw [hdn, chunksGo_nil] at hrest
            exact hrest rfl
          have hlt : n < l2.length + 1 := by
            have hpos := List.length_pos.mpr hdropne
            simp [List.length_drop, List.length_cons] at hpos
            omega
          simp [List.length_take, List.length_cons]
          omega
        · exact ih ((a :: l2).drop n) b
            (by simp [List.length_drop] at h ⊢; omega) hb

/-- Counterexample to C7 as stated: a negative batch size is not signalled
as a configuration error — the comprehension's `range(0, len(offers), -1)`
is empty, so the split silently degenerates to an empty batch list. -/
theorem batch_split_cex :
    splitBatches [Json.null] (-1) = some [] ∧
    splitBatches [Json.null] (-1) ≠ none := by decide

/-- C7 (amended): for every positive `batch_size` the splitter preserves
input order — the concatenation of the batches equals the input — with
every batch non-empty, no batch longer than `batch_size`, and every batch
except possibly the last of length exactly `batch_size`; `batch_size = 0`
raises `ValueError` from `range` (modelled as `none`); but a negative
`batch_size` silently yields an empty batch list rather than signalling a
configuration error. -/
theorem batch_split_amended (offers : List Json) (bs : Int) :
    (0 < bs → ∃ bl, splitBatches offers bs = some bl ∧
      bl.flatten = offers ∧
      (∀ b ∈ bl, b ≠ [] ∧ b.length ≤ bs.toNat) ∧
      (∀ b ∈ bl.dropLast, b.length = bs.toNat)) ∧
    splitBatches offers 0 = none ∧
    (bs < 0 → splitBatches offers bs = some []) := by
  refine ⟨?_, by simp [splitBatches], ?_⟩
  · intro hbs
    have hn : 1 ≤ bs.toNat := by omega
    refine ⟨chunks bs.toNat offers, ?_, ?_, ?_, ?_⟩
    · rw [splitBatches, if_neg (by omega), if_neg (by omega)]
    · exact chunksGo_flatten _ hn _ _ le_rfl
    · intro b hb
      exact chunksGo_mem _ hn _ _ b le_rfl hb
    · intro b hb
      exact chunksGo_dropLast_len _ hn _ _ b le_rfl hb
  · intro hneg
    rw [splitBatches, if_neg (by omega), if_pos hneg]

/-- Witness for the amended C7: three postings split with batch size 2. -/
theorem batch_split_amended_witness :
    ((0 : Int) < 2 ∧
     (∃ bl, splitBatches [Json.null, Json.num 1, Json.num 2] 2 = some bl ∧
       bl.flatten = [Json.null, Json.num 1, Json.num 2] ∧
       (∀ b ∈ bl, b ≠ [] ∧ b.length ≤ (2 : Int).toNat) ∧
       (∀ b ∈ bl.dropLast, b.length = (2 : Int).toNat))) ∧
    splitBatches [Json.null, Json.num 1, Json.num 2] 0 = none ∧
    ((-1 : Int) < 0 → splitBatches [Json.null, Json.num 1, Json.num 2] (-1) =
      some []) :=
  ⟨⟨by decide,
    (batch_split_amended [Json.null, Json.num 1, Json.num 2] 2).1 (by decide)⟩,
   (batch_split_amended [Json.null, Json.num 1, Json.num 2] 0).2.1,
   fun h => (batch_split_amended [Json.null, Json.num 1, Json.num 2] (-1)).2.2 h⟩

/-- Counterexample to C8 as stated: on an empty input posting collection
`filter_offers` returns `[]` without persisting anything (`saved = none`),
so a prior artifact at `data/matches.json` is not replaced. -/
theorem save_artifact_cex :
    filterOffers (fun _ _ => GenOutcome.exn "boom") 3 [] 25 =
      .ok ⟨[], [], none⟩ := by decide

/-- C8 (amended): every completed run over a non-empty posting collection
persists the final consolidated match list as the run's canonical result
artifact, fully replacing any prior artifact (the file is opened in write
mode), including when the consolidated list is empty; but a run over an
empty input collection returns `[]` without writing anything, leaving a
prior artifact in place. -/
theorem save_artifact_amended (env : Nat → Nat → GenOutcome) (M : Nat)
    (offers : List Json) (bs : Int) (run : FilterRun)
    (hne : offers ≠ [])
    (hrun : filterOffers env M offers bs = .ok run) :
    run.saved = some run.result ∧
    filterOffers env M [] bs = .ok ⟨[], [], none⟩ := by
  constructor
  · rw [filterOffers, if_neg (by simpa using hne)] at hrun
    cases hsp : splitBatches offers bs with
    | none =>
      rw [hsp] at hrun
      have hrun2 : (Except.error "ValueError: range() arg 3 must not be zero" :
          Except String FilterRun) = .ok run := hrun
      exact Except.noConfusion hrun2
    | some batches =>
      rw [hsp] at hrun
      have hrun2 : (match filterBatches env M 1 [] [] [] batches with
          | Except.error e => (Except.error e : Except String FilterRun)
          | Except.ok (res, arts) =>
              Except.ok ⟨res, arts, some res⟩) = Except.ok run := hrun
      cases hfb : filterBatches env M 1 [] [] [] batches with
      | error e =>
        rw [hfb] at hrun2
        exact Except.noConfusion hrun2
      | ok p =>
        obtain ⟨res, arts⟩ := p
        rw [hfb] at hrun2
        have hre := (Except.ok.inj hrun2).symm
        subst hre
        rfl
  · simp [filterOffers]

/-- Witness for the amended C8: a non-empty offer list whose single batch
degrades to no matches still writes the (empty) consolidated list. -/
theorem save_artifact_amended_witness :
    (([Json.obj []] : List Json) ≠ [] ∧
     filterOffers (fun _ _ => GenOutcome.exn "boom") 3 [Json.obj []] 25 =
       .ok ⟨[], [⟨1, 1, .serviceExn "boom"⟩, ⟨1, 2, .serviceExn "boom"⟩,
         ⟨1, 3, .serviceExn "boom"⟩], some []⟩) ∧
    ((⟨[], [⟨1, 1, .serviceExn "boom"⟩, ⟨1, 2, .serviceExn "boom"⟩,
        ⟨1, 3, .serviceExn "boom"⟩], some []⟩ : FilterRun).saved =
      some (⟨[], [⟨1, 1, .serviceExn "boom"⟩, ⟨1, 2, .serviceExn "boom"⟩,
        ⟨1, 3, .serviceExn "boom"⟩], some []⟩ : FilterRun).result ∧
     filterOffers (fun _ _ => GenOutcome.exn "boom") 3 [] 25 =
       .ok ⟨[], [], none⟩) :=
  ⟨⟨by decide, by decide⟩,
   save_artifact_amended (fun _ _ => GenOutcome.exn "boom") 3 [Json.obj []] 25
     ⟨[], [⟨1, 1, .serviceExn "boom"⟩, ⟨1, 2, .serviceExn "boom"⟩,
       ⟨1, 3, .serviceExn "boom"⟩], some []⟩ (by decide) (by decide)⟩

/-- C9: a record missing the `title`, `employer`, `linkOffer`, or `reason`
field is rendered using the literal placeholder text "Sin título",
"Sin empresa", "#", or the empty string respectively, and rendering never
fails on such a record (each render returns `.ok`). -/
theorem digest_placeholders (offer : Json) :
    (pyGet offer "title" = none →
      renderField offer "title" "Sin título" = .ok "Sin título") ∧
    (pyGet offer "employer" = none →
      renderField offer "employer" "Sin empresa" = .ok "Sin empresa") ∧
    (pyGet offer "linkOffer" = none →
      renderField offer "linkOffer" "#" = .ok "#") ∧
    (pyGet offer "reason" = none →
      renderField offer "reason" "" = .ok "") ∧
    (pyGet offer "title" = none → pyGet offer "employer" = none →
      pyGet offer "linkOffer" = none → pyGet offer "reason" = none →
      renderOffer offer = .ok (offerDiv "Sin título" "Sin empresa" "#" "")) := by
  have f1 : pyGet offer "title" = none →
      renderField offer "title" "Sin título" = .ok "Sin título" := by
    intro h
    rw [renderField, h]
    exact congrArg Except.ok (by decide)
  have f2 : pyGet offer "employer" = none →
      renderField offer "employer" "Sin empresa" = .ok "Sin empresa" := by
    intro h
    rw [renderField, h]
    exact congrArg Except.ok (by decide)
  have f3 : pyGet offer "linkOffer" = none →
      renderField offer "linkOffer" "#" = .ok "#" := by
    intro h
    rw [renderField, h]
    exact congrArg Except.ok (by decide)
  have f4 : pyGet offer "reason" = none →
      renderField offer "reason" "" = .ok "" := by
    intro h
    rw [renderField, h]
    exact congrArg Except.ok (by decide)
  refine ⟨f1, f2, f3, f4, ?_⟩
  intro h1 h2 h3 h4
  rw [renderOffer, f1 h1, f2 h2, f3 h3, f4 h4]

/-- Witness for C9: the empty record misses all four fields. -/
theorem digest_placeholders_witness :
    pyGet (Json.obj []) "title" = none ∧
    renderField (Json.obj []) "title" "Sin título" = .ok "Sin título" ∧
    renderField (Json.obj []) "employer" "Sin empresa" = .ok "Sin empresa" ∧
    renderField (Json.obj []) "linkOffer" "#" = .ok "#" ∧
    renderField (Json.obj []) "reason" "" = .ok "" ∧
    renderOffer (Json.obj []) =
      .ok (offerDiv "Sin título" "Sin empresa" "#" "") :=
  ⟨by decide,
   (digest_placeholders (Json.obj [])).1 (by decide),
   (digest_placeholders (Json.obj [])).2.1 (by decide),
   (digest_placeholders (Json.obj [])).2.2.1 (by decide),
   (digest_placeholders (Json.obj [])).2.2.2.1 (by decide),
   (digest_placeholders (Json.obj [])).2.2.2.2 (by decide) (by decide)
     (by decide) (by decide)⟩

theorem dedupBatch_error_of_nonobj :
    ∀ (ms seen acc : List Json), (∃ m ∈ ms, jsonIsObj m = false) →
      ∃ e, dedupBatch seen acc ms = .error e := by
  intro ms
  induction ms with
  | nil => intro seen acc h; simp at h
  | cons m ms ih =>
    intro seen acc h
    cases hk : consolidatorKey m with
    | error e => exact ⟨e, by simp [dedupBatch, hk]⟩
    | ok k =>
      have hmobj : jsonIsObj m = true := by
        cases m <;> simp [jsonIsObj] <;> simp [consolidatorKey] at hk
      obtain ⟨m2, hm2, hm2n⟩ := h
      rcases List.mem_cons.mp hm2 with rfl | hm2m
      · rw [hmobj] at hm2n
        exact Bool.noConfusion hm2n
      · have hrec : ∃ x ∈ ms, jsonIsObj x = false := ⟨m2, hm2m, hm2n⟩
        simp only [dedupBatch, hk]
        by_cases hin : k ∈ seen
        · rw [if_pos hin]
          exact ih seen acc hrec
        · rw [if_neg hin]
          exact ih (k :: seen) (acc ++ [m]) hrec

theorem consolidateLists_error_of_nonobj :
    ∀ (lists : List (List Json)) (seen acc : List Json),
      (∃ m ∈ lists.flatten, jsonIsObj m = false) →
      ∃ e, consolidateLists seen acc lists = .error e := by
  intro lists
  induction lists with
  | nil => intro seen acc h; simp at h
  | cons l ls ih =>
    intro seen acc h
    obtain ⟨m, hm, hmn⟩ := h
    rw [List.flatten_cons, List.mem_append] at hm
    simp only [consolidateLists]
    by_cases he : l.isEmpty
    · have hl : l = [] := by simpa using he
      subst hl
      rw [if_pos he]
      rcases hm with hm | hm
      · simp at hm
      · exact ih seen acc ⟨m, hm, hmn⟩
    · rw [if_neg he]
      rcases hm with hm | hm
      · obtain ⟨e, hde⟩ := dedupBatch_error_of_nonobj l seen acc ⟨m, hm, hmn⟩
        exact ⟨e, by rw [hde]⟩
      · cases hd : dedupBatch seen acc l with
        | error e => exact ⟨e, rfl⟩
        | ok p =>
          obtain ⟨s2, a2⟩ := p
          exact ih s2 a2 ⟨m, hm, hmn⟩

/-- C10 (implicit): the cross-batch consolidation assumes every element of
a successfully parsed batch list is a record; if some batch's returned
match list contains a non-record element (a number, a string, …), then
computing the dedup key raises an uncaught exception that escapes the
batch-level degrade-not-abort boundary: the whole `filter_offers` run
aborts with an error. -/
theorem consolidation_nonrecord_abort (env : Nat → Nat → GenOutcome)
    (M : Nat) (offers : List Json) (bs : Int) (batches : List (List Json))
    (hsp : splitBatches offers bs = some batches)
    (h : ∃ m ∈ (batchResultsFrom env M 1 batches).flatten,
        jsonIsObj m = false) :
    ∃ e, filterOffers env M offers bs = .error e := by
  by_cases hoe : offers.isEmpty
  · exfalso
    have hnil : offers = [] := by simpa using hoe
    subst hnil
    have hb : batches = [] := by
      have h0 := splitBatches_nil_getD bs
      rw [hsp] at h0
      simpa using h0
    subst hb
    obtain ⟨m, hm, _⟩ := h
    simp [batchResultsFrom] at hm
  · obtain ⟨e, hce⟩ := consolidateLists_error_of_nonobj
      (batchResultsFrom env M 1 batches) [] [] h
    refine ⟨e, ?_⟩
    have hfb := filterBatches_eq env M batches 1 [] [] []
    rw [hce] at hfb
    rw [filterOffers, if_neg hoe, hsp]
    show (match filterBatches env M 1 [] [] [] batches with
      | Except.error e => (Except.error e : Except String FilterRun)
      | Except.ok (res, arts) =>
          Except.ok ⟨res, arts, some res⟩) = .error e
    rw [hfb]
    rfl

/-- Witness for C10: the single batch parses to `[1]`, a list containing a
non-record element, and the run aborts. -/
theorem consolidation_nonrecord_abort_witness :
    (splitBatches [Json.obj []] 25 = some [[Json.obj []]] ∧
     (∃ m ∈ (batchResultsFrom (fun _ _ => respOfText "[1]") 3 1
        [[Json.obj []]]).flatten, jsonIsObj m = false)) ∧
    (∃ e, filterOffers (fun _ _ => respOfText "[1]") 3 [Json.obj []] 25 =
      .error e) :=
  ⟨⟨by decide, by decide⟩,
   consolidation_nonrecord_abort (fun _ _ => respOfText "[1]") 3
     [Json.obj []] 25 [[Json.obj []]] (by decide) (by decide)⟩
